import Mathlib

/-!
Verification of the nova-companion response gating pipeline.

This file shallowly embeds the gating pipeline of the repository:
the voice engine (server/voice-engine.ts), the order-sensitive behavior
gates inside the chat-completions route (server/routes.ts), and the
decision telemetry (server/telemetry/decision-log.ts).

Strings are modelled as lists of characters (Str).  JavaScript string
operations are translated operation by operation:
- trim removes leading/trailing whitespace characters,
- toLowerCase lowers ASCII letters (every pattern in the source is ASCII),
- the anchored and word-boundary regular expressions of the source are
  translated to decidable scanners over the same character classes,
- Math.random picks are modelled by an index parameter r used modulo the
  pool length, and
- the single network fetch of the model path is an explicit input of type
  Except Unit FetchResp: Except.error models a thrown network error, a
  FetchResp with ok = false models a non-OK HTTP response.
-/

namespace Nova

deriving instance DecidableEq for Except

abbrev Str := List Char

/-- The ASCII apostrophe character, used to assemble string constants. -/
def apoc : Char := Char.ofNat 39

/-- Assemble a string containing one apostrophe from its two halves. -/
def apS (a b : String) : Str := a.data ++ apoc :: b.data

/-- Assemble a string containing two apostrophes from its three parts. -/
def apS3 (a b c : String) : Str := a.data ++ apoc :: b.data ++ apoc :: c.data

/-- Whitespace characters: the ASCII whitespace subset of the JavaScript
class backslash-s (space, tab, line feed, vertical tab, form feed,
carriage return) plus no-break space. -/
def isWsChar (c : Char) : Bool :=
  c.toNat == 32 || c.toNat == 9 || c.toNat == 10 || c.toNat == 11 ||
  c.toNat == 12 || c.toNat == 13 || c.toNat == 160

/-- Sentence terminators, the class [.!?] (code points 46, 33, 63). -/
def isTermChar (c : Char) : Bool :=
  c.toNat == 46 || c.toNat == 33 || c.toNat == 63

/-- Punctuation handled by the sanitizer, the class [,.;:!?]. -/
def isPunctChar (c : Char) : Bool :=
  c == ',' || c == '.' || c == ';' || c == ':' || c == '!' || c == '?'

/-- ASCII letters, the class [A-Za-z]. -/
def isAsciiLetter (c : Char) : Bool :=
  (65 ≤ c.toNat && c.toNat ≤ 90) || (97 ≤ c.toNat && c.toNat ≤ 122)

/-- Word characters for the regex word boundary: [A-Za-z0-9_]. -/
def isWordChar (c : Char) : Bool :=
  isAsciiLetter c || (48 ≤ c.toNat && c.toNat ≤ 57) || c.toNat == 95

/-- Quote characters stripped by the sanitizer. -/
def isQuoteChar (c : Char) : Bool :=
  c.toNat == 34 || c.toNat == 39 || c.toNat == 8220 || c.toNat == 8221 ||
  c.toNat == 8216 || c.toNat == 8217

/-- ASCII lower casing of one character (toLowerCase on the ASCII range). -/
def lowerChar (c : Char) : Char :=
  if 65 ≤ c.toNat ∧ c.toNat ≤ 90 then Char.ofNat (c.toNat + 32) else c

/-- ASCII lower casing of a string. -/
def lowerStr (t : Str) : Str := t.map lowerChar

/-- Remove leading whitespace. -/
def trimLeft (t : Str) : Str := t.dropWhile isWsChar

/-- Remove trailing whitespace. -/
def trimRight (t : Str) : Str := (t.reverse.dropWhile isWsChar).reverse

/-- JavaScript String.trim. -/
def trimBoth (t : Str) : Str := trimRight (trimLeft t)

/-- Case-sensitive prefix test. -/
def startsWithStr : Str → Str → Bool
  | [], _ => true
  | _ :: _, [] => false
  | p :: ps, c :: cs => p == c && startsWithStr ps cs

/-- Case-sensitive substring test (String.includes). -/
def containsStr (p : Str) : Str → Bool
  | [] => startsWithStr p []
  | c :: cs => startsWithStr p (c :: cs) || containsStr p cs

/-- Case-insensitive (ASCII) character equality. -/
def eqCI (a b : Char) : Bool := lowerChar a == lowerChar b

/-- Case-insensitive prefix test. -/
def startsWithCI : Str → Str → Bool
  | [], _ => true
  | _ :: _, [] => false
  | p :: ps, c :: cs => eqCI p c && startsWithCI ps cs

/-- Case-insensitive substring test. -/
def containsCI (p : Str) : Str → Bool
  | [] => startsWithCI p []
  | c :: cs => startsWithCI p (c :: cs) || containsCI p cs

/-- Remove every case-insensitive occurrence of a nonempty pattern,
scanning left to right without overlap: the semantics of
response.replace(new RegExp(escaped, "ig"), "").  An empty pattern is
returned unchanged (the source never passes one). -/
def removeAllCIF (p : Str) : Nat → Str → Str
  | _, [] => []
  | 0, t => t
  | fuel + 1, c :: cs =>
    if p.length = 0 then c :: cs
    else if startsWithCI p (c :: cs) then
      removeAllCIF p fuel ((c :: cs).drop p.length)
    else c :: removeAllCIF p fuel cs

def removeAllCI (p t : Str) : Str := removeAllCIF p t.length t

/-- Collapse every run of two or more whitespace characters into one
space; a lone whitespace character is kept as it is: the semantics of
replace of backslash-s repeated at least twice by one space. -/
def collapseWsF : Nat → Str → Str
  | _, [] => []
  | _, [c] => [c]
  | 0, t => t
  | fuel + 1, c :: c2 :: cs =>
    if isWsChar c && isWsChar c2 then
      ' ' :: collapseWsF fuel ((c2 :: cs).dropWhile isWsChar)
    else c :: collapseWsF fuel (c2 :: cs)

def collapseWs (t : Str) : Str := collapseWsF t.length t

/-- True when the first character of the string is sanitizer punctuation. -/
def headIsPunct : Str → Bool
  | [] => false
  | c :: _ => isPunctChar c

/-- Delete whitespace that stands before punctuation: the semantics of
replace of (whitespace run)(punctuation) by the punctuation alone.  A
whitespace character is deleted exactly when the first non-whitespace
character after it is punctuation. -/
def dropWsBeforePunct : Str → Str
  | [] => []
  | c :: cs =>
    if isWsChar c && headIsPunct (cs.dropWhile isWsChar) then dropWsBeforePunct cs
    else c :: dropWsBeforePunct cs

/-- Insert a space between punctuation and a letter directly following
it: the semantics of replace of (punctuation)(letter) by the pair with a
space, the scan continuing after each replaced pair. -/
def spaceAfterPunct : Str → Str
  | p :: c :: cs =>
    if isPunctChar p && isAsciiLetter c then p :: ' ' :: c :: spaceAfterPunct cs
    else p :: spaceAfterPunct (c :: cs)
  | t => t

/-- Strip a leading run and a trailing run of quote characters. -/
def stripQuoteEnds (t : Str) : Str :=
  ((t.dropWhile isQuoteChar).reverse.dropWhile isQuoteChar).reverse

/-- The fixed minimal presence line of the sanitizer fallback. -/
def imHere : Str := apS "I" "m here."

/-- sanitizeBannedPhrase of voice-engine.ts: remove every occurrence of
the phrase, clean up whitespace and punctuation artifacts, strip quotes,
and fall back to a fixed presence line when nothing meaningful is left. -/
def sanitizeBannedPhrase (response : Str) (bannedPhrase : Str) : Str :=
  let s0 := removeAllCI bannedPhrase response
  let s1 := collapseWs s0
  let s2 := dropWsBeforePunct s1
  let s3 := spaceAfterPunct s2
  let s4 := trimBoth s3
  let s5 := trimBoth (stripQuoteEnds s4)
  if s5 = [] then imHere else s5

/-! ### Voice-engine data (voice-engine.ts) -/

/-- Voice modes. -/
inductive Mode
  | quiet
  | engaged
  | mythic
  | blunt
deriving DecidableEq

/-- Response style configuration per mode. -/
structure ResponseStyle where
  maxSentences : Nat
  allowQuestionsOnGreeting : Bool
  warmthBias : Nat
deriving DecidableEq

/-- MODE_STYLES. -/
def modeStyles : Mode → ResponseStyle
  | .quiet => ⟨2, false, 40⟩
  | .engaged => ⟨4, true, 70⟩
  | .mythic => ⟨3, false, 50⟩
  | .blunt => ⟨2, false, 20⟩

/-- BANNED_PHRASES, in source order. -/
def bannedPhrases : List Str :=
  [ "tell me how that makes you feel".data
  , apS "that" "s a thoughtful observation"
  , apS "i" "m here to help"
  , "how does that make you feel".data
  , "what a great question".data
  , apS "that" "s a great point"
  , "i understand how you feel".data
  , apS "it sounds like you" "re feeling"
  , apS "i hear what you" "re saying"
  , "thank you for sharing".data
  , apS "i" "m glad you shared that"
  , apS "that" "s understandable"
  , "that must be difficult".data
  , "i can imagine".data
  , apS "let" "s explore that"
  , apS "let" "s unpack that"
  , "it sounds like".data
  , apS3 "i" "m sorry you" "re going through"
  , "you are valid".data ]

/-- CONDITIONAL_BANNED_PHRASES. -/
def conditionalBannedPhrases : List Str :=
  [ "as an ai".data
  , "as an artificial intelligence".data ]

/-- The greeting words of GREETING_PATTERNS. -/
def greetWords : List Str :=
  [ "hi".data, "hey".data, "hello".data, "yo".data, "sup".data
  , "heya".data, "hiya".data, "howdy".data ]

/-- GREETING_RESPONSES. -/
def greetingResponses : List Str :=
  [ "Hey.".data, "Hi.".data, "Mm.".data, "Yeah.".data
  , apS "I" "m here.", "Here.".data, apS "Hey—I" "m here." ]

/-- MODE_GREETING_RESPONSES. -/
def modeGreetingResponses : Mode → List Str
  | .quiet => greetingResponses
  | .engaged =>
      [ "Hey.".data, "Hi.".data, apS "I" "m here."
      , apS "Yeah—I" "m here.", apS "Hey, I" "m here." ]
  | .mythic =>
      [ "I’m here.".data, "I’m with you.".data, "Here.".data, "Still here.".data ]
  | .blunt => [ "Yeah.".data, "Here.".data, apS "I" "m here." ]

/-- ELLIPSIS_RESPONSES. -/
def ellipsisResponses : List Str :=
  [ "…".data, "Mm.".data, "I’m here.".data, "Still here.".data ]

/-- ULTRA_SHORT_RESPONSES. -/
def ultraShortResponses : List Str :=
  [ "Yeah.".data, "Mm.".data, "Got it.".data, "Okay.".data ]

/-- CASUAL_PROBE_RESPONSES. -/
def casualProbeResponses : List Str :=
  [ "Yeah.".data, "I’m here.".data, "Here.".data, "I’m here with you.".data ]

/-- The exact strings accepted by the three anchored CASUAL_PROBE_PATTERNS
(alternatives expanded, before the optional question mark). -/
def casualProbeBase : List Str :=
  [ "you there".data, "are you there".data
  , apS "what" "re you doing", "whatre you doing".data, "what are you doing".data
  , apS "what" "re you up to", "whatre you up to".data, "what are you up to".data
  , "whatcha doing".data, "whatcha doin".data
  , "watcha doing".data, "watcha doin".data ]

/-- All strings accepted by CASUAL_PROBE_PATTERNS (optional trailing
question mark). -/
def casualProbeStrings : List Str :=
  casualProbeBase ++ casualProbeBase.map (fun s => s ++ "?".data)

/-- The lower-cased substrings recognized by isAskingAboutCapabilities. -/
def capabilityMarkers : List Str :=
  [ "are you ai".data, "are you an ai".data, "what are you".data
  , "who are you".data, "are you real".data, "how do you work".data
  , "can you feel".data, "do you have feelings".data ]

/-! ### Voice-engine helpers (voice-engine.ts) -/

/-- isAskingAboutCapabilities. -/
def isAskingAboutCapabilities (message : Str) : Bool :=
  let m := lowerStr (trimBoth message)
  capabilityMarkers.any (fun p => containsStr p m)

/-- containsBannedPhrase: the first unconditionally banned phrase found in
the lower-cased response, else (when the user did not ask about
capabilities) the first conditional phrase found. -/
def containsBannedPhrase (response : Str) (userAskedAboutCapabilities : Bool) :
    Option Str :=
  let lower := lowerStr response
  match bannedPhrases.find? (fun p => containsStr p lower) with
  | some p => some p
  | none =>
    if !userAskedAboutCapabilities then
      conditionalBannedPhrases.find? (fun p => containsStr p lower)
    else none

/-- isGreeting: the anchored pattern of a greeting word followed only by
whitespace or the characters !., applied to the trimmed message,
case-insensitively. -/
def isGreeting (message : Str) : Bool :=
  let t := lowerStr (trimBoth message)
  greetWords.any (fun g =>
    startsWithStr g t &&
    (t.drop g.length).all (fun c => isWsChar c || c == '!' || c == '.' || c == ','))

/-- isEllipsisOnly. -/
def isEllipsisOnly (message : Str) : Bool :=
  let t := trimBoth message
  t == "...".data || t == "…".data

/-- Number of maximal non-whitespace runs; the flag records whether the
scan is inside a word. -/
def wordCountAux (inWord : Bool) : Str → Nat
  | [] => 0
  | c :: cs =>
    if isWsChar c then wordCountAux false cs
    else (if inWord then 0 else 1) + wordCountAux true cs

/-- Word count: trim, split on whitespace runs, drop empties, count. -/
def wordCountStr (t : Str) : Nat := wordCountAux false (trimBoth t)

/-- isUltraShort of voice-engine.ts: nonempty trimmed message with at
most two words and at most six characters. -/
def isUltraShort (message : Str) : Bool :=
  let t := trimBoth message
  !(t.length == 0) && decide (wordCountStr message ≤ 2) && decide (t.length ≤ 6)

/-- isCasualProbe: the three anchored patterns, on the trimmed message,
case-insensitively. -/
def isCasualProbe (message : Str) : Bool :=
  let t := lowerStr (trimBoth message)
  casualProbeStrings.any (fun s => s == t)

/-- Number of maximal runs of sentence terminators; the flag records
whether the scan is inside a run. -/
def termRunsA (inRun : Bool) : Str → Nat
  | [] => 0
  | c :: cs =>
    if isTermChar c then (if inRun then 0 else 1) + termRunsA true cs
    else termRunsA false cs

/-- The number of sentence-terminator runs of a text. -/
def termRuns (t : Str) : Nat := termRunsA false t

/-- countSentences: terminator-run count of the trimmed text. -/
def countSentences (t : Str) : Nat := termRunsA false (trimBoth t)

/-- The leading chunk before the first sentence terminator. -/
def chunkOf (t : Str) : Str := t.takeWhile (fun c => !(isTermChar c))

/-- The remainder starting at the first sentence terminator. -/
def restOf (t : Str) : Str := t.dropWhile (fun c => !(isTermChar c))

/-- The separator part: the maximal terminator run together with the
whitespace run following it ([.!?]+ followed by optional whitespace). -/
def sepOf (t : Str) : Str :=
  (restOf t).takeWhile isTermChar ++
    ((restOf t).dropWhile isTermChar).takeWhile isWsChar

/-- The text remaining after the first separator part. -/
def tailOf (t : Str) : Str :=
  ((restOf t).dropWhile isTermChar).dropWhile isWsChar

/-- Fuel-indexed splitting loop; the fuel bounds the recursion depth and
never runs out when it starts at the length of the text. -/
def splitPartsF : Nat → Str → List (Str × Bool)
  | 0, t => [(chunkOf t, false)]
  | fuel + 1, t =>
    if (restOf t).length = 0 then [(chunkOf t, false)]
    else (chunkOf t, false) :: (sepOf t, true) :: splitPartsF fuel (tailOf t)

/-- The parts produced by splitting on capturing ([.!?]+ followed by
optional whitespace): chunks (flag false) alternating with separator
parts (flag true), ending with a chunk.  Chunks contain no terminator. -/
def splitParts (t : Str) : List (Str × Bool) := splitPartsF t.length t

/-- The accumulation loop of truncateToMaxSentences: append parts in
order; at each separator part count one sentence and stop once the cap
is reached. -/
def truncLoop (maxSentences : Nat) : List (Str × Bool) → Nat → Str
  | [], _ => []
  | (s, isSep) :: rest, cnt =>
    if isSep then
      if maxSentences ≤ cnt + 1 then s
      else s ++ truncLoop maxSentences rest (cnt + 1)
    else s ++ truncLoop maxSentences rest cnt

/-- truncateToMaxSentences of voice-engine.ts. -/
def truncateToMaxSentences (text : Str) (maxSentences : Nat) : Str :=
  trimBoth (truncLoop maxSentences (splitParts text) 0)

/-- randomChoice, with the random draw modelled by an index parameter
used modulo the pool size. -/
def pick (r : Nat) (pool : List Str) : Str := pool.getD (r % pool.length) []

/-- Message of the conversation history: a role and a content string. -/
structure Msg where
  role : Str
  content : Str
deriving DecidableEq

/-- The role string of user messages. -/
def userRole : Str := "user".data

/-- The last user message of the history, or the empty string:
messages.filter(user).pop()?.content or empty. -/
def engineLastUser (messages : List Msg) : Str :=
  match (messages.filter (fun m => m.role == userRole)).getLast? with
  | some m => m.content
  | none => []

/-- hasUserProvidedContext of voice-engine.ts. -/
def hasUserProvidedContext (messages : List Msg) : Bool :=
  let userMessages := messages.filter (fun m => m.role == userRole)
  if userMessages.length == 0 then false
  else if (userMessages.drop (userMessages.length - 5)).any (fun m =>
      decide (50 < (trimBoth m.content).length) ||
      containsStr "?".data (trimBoth m.content)) then true
  else
    let meaningful := userMessages.filter (fun m =>
      decide (20 < (trimBoth m.content).length) && !(isGreeting m.content))
    decide (2 ≤ meaningful.length)

/-- The gate stage of the voice engine that resolved a turn. -/
inductive EngineStage
  | greeting
  | ellipsis
  | ultraShort
  | casualProbe
  | modelPath
deriving DecidableEq

/-- The ordered short-circuit checks of generateResponse, first match
wins: greeting, ellipsis-only, ultra-short, casual probe. -/
def engineShortCircuit (mode : Mode) (messages : List Msg) (r : Nat) :
    Option (Str × EngineStage) :=
  let lastUserMessage := engineLastUser messages
  if isGreeting lastUserMessage then
    some (pick r (modeGreetingResponses mode), .greeting)
  else if isEllipsisOnly lastUserMessage then
    some (pick r ellipsisResponses, .ellipsis)
  else if isUltraShort lastUserMessage then
    some (pick r ultraShortResponses, .ultraShort)
  else if isCasualProbe lastUserMessage then
    some (pick r casualProbeResponses, .casualProbe)
  else none

/-- The sentence-budget post-processing step of generateResponse. -/
def sentenceGate (mode : Mode) (messages : List Msg) (text : Str) : Str :=
  if !(hasUserProvidedContext messages) &&
      decide ((modeStyles mode).maxSentences < countSentences text) then
    truncateToMaxSentences text (modeStyles mode).maxSentences
  else text

/-- The post-processing of the model response in generateResponse:
banned-phrase check with deterministic sanitization (rewritten only when
the text changed), then sentence-budget enforcement.  Returns the final
text and the rewritten flag. -/
def enginePost (mode : Mode) (messages : List Msg) (text : Str) : Str × Bool :=
  let asked := isAskingAboutCapabilities (engineLastUser messages)
  match containsBannedPhrase text asked with
  | some p =>
    let s := sanitizeBannedPhrase text p
    if s == text then (sentenceGate mode messages text, false)
    else (sentenceGate mode messages s, true)
  | none => (sentenceGate mode messages text, false)

/-- The observable outcome of one generateResponse evaluation.  The
collabCalls field counts the invocations of the model-call collaborator:
the definition mirrors the single call site of the source. -/
structure EngineOut where
  response : Str
  shortCircuited : Bool
  rewritten : Bool
  stage : EngineStage
  collabCalls : Nat
deriving DecidableEq

/-- generateResponse of voice-engine.ts, with the model-call
collaborator replaced by its outcome: Except.error stands for a thrown
error, which the engine does not catch. -/
def engineEval (mode : Mode) (messages : List Msg) (r : Nat)
    (collabOutcome : Except Unit Str) : Except Unit EngineOut :=
  match engineShortCircuit mode messages r with
  | some (resp, st) => .ok ⟨resp, true, false, st, 0⟩
  | none =>
    match collabOutcome with
    | .error e => .error e
    | .ok text =>
      let pr := enginePost mode messages text
      .ok ⟨pr.1, false, pr.2, .modelPath, 1⟩

/-! ### Route-level gate data (routes.ts, the callModel closure) -/

/-- The presence lines for pure pauses. -/
def quietPresenceLines : List Str :=
  [ apS "I" "m here.", "Still with you.".data, "Take your time.".data
  , apS "I" "m listening." ]

/-- ultraShortSet: the fixed minimal acknowledgements. -/
def ackSet : List Str :=
  [ "ok".data, "okay".data, "k".data, "kk".data, "yeah".data, "yep".data
  , "no".data, "nope".data, "nah".data, "sure".data, "thanks".data, "ty".data
  , "lol".data, "lmao".data, "hm".data, "hmm".data, "idk".data
  , "i dont know".data, apS "i don" "t know", "nm".data, "not much".data
  , "meh".data, "nothing".data, "nothin".data ]

/-- The soft acknowledgements for ultra-short messages. -/
def softAcks : List Str :=
  [ apS "Okay. I" "m here.", apS "No rush. I" "m here."
  , "Alright. We can sit for a moment.".data, apS "Got it. I" "m with you." ]

/-- The invitesConversation substring alternatives. -/
def invitePhrases : List Str :=
  [ "i want to talk".data, "can i tell you".data, "i need to tell you".data
  , "i need to ask you".data, "i want to tell you".data, "can we talk".data
  , "i want to share".data ]

/-- The fixed reply to an explicit invite. -/
def inviteReply : Str := apS "Sure. Go ahead—I" "m listening."

/-- The question starter words of looksLikeQuestion. -/
def questionStarters : List Str :=
  [ "what".data, "why".data, "how".data, "when".data, "where".data
  , "who".data, "can".data, "could".data, "would".data, "should".data
  , "do".data, "does".data, "did".data, "is".data, "are".data
  , "am".data, "will".data ]

/-- STAGE1_DEMO_RESPONSES, returned when no API key is configured. -/
def demoResponses : List Str :=
  [ apS "I" "m here.", "Listening.".data, "I hear you.".data
  , "Noted.".data, "Present.".data, "Understood.".data ]

/-- The fixed apology sentence for a non-OK model response. -/
def apologyLine : Str :=
  "I couldn’t reach the model just now. Try again in a moment.".data

/-- The focus terms of the Stage 3 continuity scorer, in source order. -/
def focusTerms : List Str :=
  [ "stress".data, "stressed".data, "overwhelmed".data, "pressure".data
  , "tired".data, "exhausted".data, "drained".data, "long day".data
  , "hard day".data, "rough day".data, "worried".data, "anxious".data
  , "uneasy".data, "sad".data, "down".data, "low".data, "angry".data
  , "mad".data, "irritated".data, "lonely".data, "alone".data
  , "isolated".data ]

/-- The continuity cooldown: ten minutes in milliseconds. -/
def contCooldownMs : Nat := 600000

/-- The reflection cooldown: forty-five seconds in milliseconds. -/
def reflCooldownMs : Nat := 45000

/-! ### Route-level gate helpers -/

/-- getLastUserText: the content of the last user message, trimmed, or
the empty string. -/
def routesLastUser (msgs : List Msg) : Str :=
  match (msgs.reverse.find? (fun m => m.role == userRole)) with
  | some m => trimBoth m.content
  | none => []

/-- True when the string starts with a non-word character or is empty:
the regex word boundary after a match ending in a word character. -/
def boundaryAfter : Str → Bool
  | [] => true
  | c :: _ => !(isWordChar c)

/-- looksLikeQuestion of routes.ts. -/
def looksLikeQuestion (text : Str) : Bool :=
  let tr := trimBoth text
  containsStr "?".data tr ||
    questionStarters.any (fun w =>
      startsWithCI w tr && boundaryAfter (tr.drop w.length))

/-- The ultra-short condition of the route gate: at most two words and
not question-like, or exact membership in the acknowledgement set. -/
def routesUltraShort (lastUser lowerUser : Str) (wc : Nat) : Bool :=
  (decide (wc ≤ 2) && !(looksLikeQuestion lastUser)) ||
    ackSet.any (fun a => a == lowerUser)

/-- invitesConversation: unanchored, case-insensitive substring match. -/
def invitesConversation (text : Str) : Bool :=
  invitePhrases.any (fun p => containsStr p (lowerStr text))

/-- Match a regex alternative, given as word segments joined by optional
whitespace runs, at the start of the string; return the remainder.  The
segments start with letters, so consuming the maximal whitespace run
between segments is faithful to the backslash-s-star of the source. -/
def matchSegsAt : List Str → Str → Option Str
  | [], t => some t
  | s :: rest, t =>
    if startsWithStr s t then
      match rest with
      | [] => some (t.drop s.length)
      | _ :: _ => matchSegsAt rest ((t.drop s.length).dropWhile isWsChar)
    else none

/-- True when one of the alternatives matches at the start of the string
with a word boundary after it. -/
def altAt (alts : List (List Str)) (t : Str) : Bool :=
  alts.any (fun a =>
    match matchSegsAt a t with
    | some rest => boundaryAfter rest
    | none => false)

/-- Scan for a word-bounded occurrence of one of the alternatives; the
flag records whether the previous character was a word character (the
boundary before a match starting with a word character). -/
def wbScan (alts : List (List Str)) : Bool → Str → Bool
  | _, [] => false
  | prevWord, c :: cs =>
    (!prevWord && altAt alts (c :: cs)) || wbScan alts (isWordChar c) cs

/-- Word-bounded containment of one of the alternatives. -/
def wordBoundMatch (alts : List (List Str)) (t : Str) : Bool :=
  wbScan alts false t

/-- An emotion bucket of the Stage 2 reflection gate. -/
structure Bucket where
  key : Str
  alts : List (List Str)
  lines : List Str
  repeatLines : List Str
deriving DecidableEq

/-- Regex test of a bucket against a text. -/
def bMatch (b : Bucket) (t : Str) : Bool := wordBoundMatch b.alts t

/-- The ordered emotion buckets of the reflection gate. -/
def buckets : List Bucket :=
  [ ⟨"tired".data
    , [["tired".data], ["exhausted".data], ["drained".data], ["sleepy".data]
      , ["worn".data, "out".data]]
    , [apS "Sounds like you" "re running on low right now."]
    , [apS "You" "ve sounded drained more than once lately."]⟩
  , ⟨"stress".data
    , [["stressed".data], ["stressful".data], ["overwhelmed".data]
      , ["pressure".data], ["burnt".data, "out".data], ["burn".data, "out".data]]
    , ["That sounds like a lot to carry.".data]
    , ["This pressure has come up more than once lately.".data]⟩
  , ⟨"longday".data
    , [["long day".data], ["rough day".data], ["hard day".data]]
    , ["That kind of day can leave you heavy.".data]
    , [apS "You" "ve mentioned hard days a few times lately."]⟩
  , ⟨"worry".data
    , [["anxious".data], ["anxiety".data], ["worried".data], ["worry".data]
      , ["nervous".data], ["uneasy".data]]
    , ["That has a restless feel to it.".data]
    , ["That worry has echoed a few times lately.".data]⟩
  , ⟨"sad".data
    , [["sad".data], ["down".data], ["low".data], ["empty".data], ["hurt".data]]
    , ["That sounds painful.".data]
    , ["That low feeling has appeared more than once lately.".data]⟩
  , ⟨"anger".data
    , [["angry".data], ["mad".data], ["furious".data], ["irritated".data]
      , ["annoyed".data]]
    , ["That sounds like it hit a nerve.".data]
    , ["That irritation has shown up a few times lately.".data]⟩
  , ⟨"lonely".data
    , [["lonely".data], ["alone".data], ["isolated".data], ["left out".data]]
    , ["That sounds isolating.".data]
    , ["That alone feeling has come up more than once lately.".data]⟩ ]

/-- The first bucket whose pattern matches the lower-cased message. -/
def bucketHit (lowerUser : Str) : Option Bucket :=
  buckets.find? (fun b => bMatch b lowerUser)

/-- The last n elements of a list (Array.slice with a negative index). -/
def lastListN {α : Type} (n : Nat) (l : List α) : List α :=
  l.drop (l.length - n)

/-! ### Cooldown state and memory continuity (routes.ts) -/

/-- A reflection cooldown entry. -/
structure ReflEntry where
  lastAt : Nat
  lastMsgSig : Str
deriving DecidableEq

/-- A continuity cooldown entry. -/
structure ContEntry where
  lastAt : Nat
  lastMemoryId : Option Str
deriving DecidableEq

/-- A stored memory as read by the continuity scorer. -/
structure Memory where
  id : Str
  content : Str
deriving DecidableEq

/-- Lookup in an association list modelling a keyed in-memory Map. -/
def lookupA {α : Type} (l : List (Str × α)) (k : Str) : Option α :=
  (l.find? (fun p => p.1 == k)).map Prod.snd

/-- The per-user, per-conversation state key. -/
def stateKey (uid cid : Str) : Str := uid ++ ":".data ++ cid

/-- The focus terms found in the lower-cased user message. -/
def matchedFocus (lower : Str) : List Str :=
  focusTerms.filter (fun t => containsStr t lower)

/-- The continuity score of one memory: the number of matched focus
terms occurring in its lower-cased content. -/
def memScore (terms : List Str) (m : Memory) : Nat :=
  (terms.filter (fun t => containsStr t (lowerStr m.content))).length

/-- The selection loop behind scored.filter(positive).sort(descending,
stable)[0]: the first memory of maximal positive score. -/
def pickBestAux (terms : List Str) : Option Memory → List Memory → Option Memory
  | best, [] => best
  | none, m :: rest =>
    pickBestAux terms (if 0 < memScore terms m then some m else none) rest
  | some b, m :: rest =>
    pickBestAux terms
      (if memScore terms b < memScore terms m then some m else some b) rest

/-- The top-scoring memory with positive score, earliest on ties. -/
def pickBest (terms : List Str) (mems : List Memory) : Option Memory :=
  pickBestAux terms none mems

/-- True when the candidate is the memory referenced last time (a
falsy stored id never blocks). -/
def isLastRef (prev : ContEntry) (m : Memory) : Bool :=
  match prev.lastMemoryId with
  | some s => !s.isEmpty && m.id == s
  | none => false

/-- Replace every whitespace run by one space (the global
whitespace-run replacement applied to the memory content). -/
def collapseAllWsF : Nat → Str → Str
  | _, [] => []
  | 0, t => t
  | fuel + 1, c :: cs =>
    if isWsChar c then ' ' :: collapseAllWsF fuel (cs.dropWhile isWsChar)
    else c :: collapseAllWsF fuel cs

def collapseAllWs (t : Str) : Str := collapseAllWsF t.length t

/-- The normalized memory content: trimmed, whitespace runs collapsed. -/
def normContent (m : Memory) : Str := collapseAllWs (trimBoth m.content)

/-- The horizontal ellipsis appended to an over-long snippet. -/
def hellip : Str := "…".data

/-- The at-most-80-character snippet of the normalized content. -/
def contSnippet (raw : Str) : Str :=
  if 80 < raw.length then raw.take 80 ++ hellip else raw

/-- The continuity sentence built from the chosen memory.  The source
conditional on the snippet starting with the word I yields the snippet
in both branches, so the line is unconditional. -/
def contLine (m : Memory) : Str :=
  "Earlier you mentioned ".data ++ contSnippet (normContent m) ++ ".".data

/-- maybeGetContinuityLine of routes.ts, as a pure function of the
opt-in flag, the continuity state, the clock, the trimmed last user
message, and the memory snapshot.  The second component counts the
memory-store reads performed (the getMemories call).  Returns the
continuity sentence and the new cooldown entry on success. -/
def maybeGetContinuityLine (allow : Bool) (contSt : List (Str × ContEntry))
    (key : Str) (now : Nat) (lastUserText : Str) (mems : List Memory) :
    Option (Str × ContEntry) × Nat :=
  if !allow then (none, 0)
  else
    let prev := (lookupA contSt key).getD ⟨0, none⟩
    if now - prev.lastAt < contCooldownMs then (none, 0)
    else if wordCountStr lastUserText < 3 then (none, 0)
    else
      -- storage.getMemories(userId) happens here: one memory read.
      if mems.isEmpty then (none, 1)
      else
        let terms := matchedFocus (lowerStr lastUserText)
        if terms.isEmpty then (none, 1)
        else
          match pickBest terms mems with
          | none => (none, 1)
          | some best =>
            if isLastRef prev best then (none, 1)
            else if (normContent best).isEmpty then (none, 1)
            else (some (contLine best, ⟨now, some best.id⟩), 1)

/-! ### The route gate (the callModel closure of routes.ts) -/

/-- The stage of the route-level gate that produced the text. -/
inductive InnerStage
  | rEllipsis
  | rUltraShort
  | invite
  | reflection
  | modelDemo
  | modelApology
  | modelOk
deriving DecidableEq

/-- The outcome of the network fetch to the model provider: the HTTP ok
flag and the extracted message content. -/
structure FetchResp where
  ok : Bool
  content : Option Str
deriving DecidableEq

/-- The observable outcome of the route-level gate: the text handed back
to the voice engine, the stage, the updated cooldown maps, the number of
external fetches, and the number of memory reads. -/
structure InnerOut where
  text : Str
  stage : InnerStage
  reflSt : List (Str × ReflEntry)
  contSt : List (Str × ContEntry)
  fetchCalls : Nat
  memReads : Nat
deriving DecidableEq

/-- The model branch: demo line without an API key; otherwise one fetch,
whose thrown error propagates, whose non-OK response yields the fixed
apology, and whose missing or empty content falls back to a presence
line. -/
def modelBranch (apiKey : Bool) (r : Nat) (fetchOutcome : Except Unit FetchResp)
    (reflSt : List (Str × ReflEntry)) (contSt : List (Str × ContEntry)) :
    Except Unit InnerOut :=
  if !apiKey then .ok ⟨pick r demoResponses, .modelDemo, reflSt, contSt, 0, 0⟩
  else
    match fetchOutcome with
    | .error e => .error e
    | .ok resp =>
      if !resp.ok then .ok ⟨apologyLine, .modelApology, reflSt, contSt, 1, 0⟩
      else
        let s := resp.content.getD []
        .ok ⟨if s.isEmpty then imHere else s, .modelOk, reflSt, contSt, 1, 0⟩

/-- lowerUser of the route gate: the trimmed lower-cased last user
message. -/
def routesLower (msgs : List Msg) : Str :=
  trimBoth (lowerStr (routesLastUser msgs))

/-- The stored reflection entry for a key, or the zero entry. -/
def reflPrev (reflSt : List (Str × ReflEntry)) (key : Str) : ReflEntry :=
  (lookupA reflSt key).getD ⟨0, []⟩

/-- The message signature: the first 140 characters of lowerUser. -/
def msgSigOf (lowerUser : Str) : Str := lowerUser.take 140

/-- canReflect: cooldown elapsed, nonempty signature, signature differs
from the stored one. -/
def canReflectB (prev : ReflEntry) (now : Nat) (msgSig : Str) : Bool :=
  decide (reflCooldownMs < now - prev.lastAt) && !msgSig.isEmpty &&
    !(msgSig == prev.lastMsgSig)

/-- The lower-cased contents of the last six user messages. -/
def recentUserTexts (msgs : List Msg) : List Str :=
  (lastListN 6 (msgs.filter (fun m => m.role == userRole))).map
    (fun m => lowerStr m.content)

/-- The callModel closure of the chat-completions route: ellipsis gate,
ultra-short gate, explicit invite, reflection with optional continuity
prefix (updating the cooldown maps), then the model branch. -/
def routesCallModel (allow apiKey : Bool) (mems : List Memory)
    (uid cid : Str) (reflSt : List (Str × ReflEntry))
    (contSt : List (Str × ContEntry)) (now r : Nat) (msgs : List Msg)
    (fetchOutcome : Except Unit FetchResp) : Except Unit InnerOut :=
  let lastUser := routesLastUser msgs
  let lowerUser := routesLower msgs
  let wc := wordCountStr lastUser
  if isEllipsisOnly lastUser then
    .ok ⟨pick r quietPresenceLines, .rEllipsis, reflSt, contSt, 0, 0⟩
  else if routesUltraShort lastUser lowerUser wc then
    .ok ⟨pick r softAcks, .rUltraShort, reflSt, contSt, 0, 0⟩
  else if invitesConversation lastUser then
    .ok ⟨inviteReply, .invite, reflSt, contSt, 0, 0⟩
  else
    let key := stateKey uid cid
    let prev := reflPrev reflSt key
    let msgSig := msgSigOf lowerUser
    if canReflectB prev now msgSig && decide (3 ≤ wc) then
      match bucketHit lowerUser with
      | some b =>
        let repeatCount := ((recentUserTexts msgs).filter
          (fun s => bMatch b s)).length
        let base := pick r (if 2 ≤ repeatCount then b.repeatLines else b.lines)
        let reflSt2 := (key, (⟨now, msgSig⟩ : ReflEntry)) :: reflSt
        let contRes := maybeGetContinuityLine allow contSt key now lastUser mems
        match contRes.1 with
        | some (line, entry) =>
          .ok ⟨line ++ " ".data ++ base, .reflection, reflSt2,
               (key, entry) :: contSt, 0, contRes.2⟩
        | none => .ok ⟨base, .reflection, reflSt2, contSt, 0, contRes.2⟩
      | none => modelBranch apiKey r fetchOutcome reflSt contSt
    else modelBranch apiKey r fetchOutcome reflSt contSt

/-! ### The composed pipeline -/

/-- The stage that resolved the whole turn. -/
inductive PipeStage
  | engine (s : EngineStage)
  | inner (s : InnerStage)
deriving DecidableEq

/-- The observable outcome of one full turn of the pipeline. -/
structure PipeOut where
  response : Str
  shortCircuited : Bool
  rewritten : Bool
  stage : PipeStage
  collabCalls : Nat
  fetchCalls : Nat
  memReads : Nat
  reflSt : List (Str × ReflEntry)
  contSt : List (Str × ContEntry)
deriving DecidableEq

/-- The full pipeline of one turn: generateResponse with the route-level
callModel closure as its model-call collaborator, per the
VoiceEngineInput contract. -/
def pipeline (mode : Mode) (allow apiKey : Bool) (mems : List Memory)
    (uid cid : Str) (reflSt : List (Str × ReflEntry))
    (contSt : List (Str × ContEntry)) (now r : Nat) (msgs : List Msg)
    (fetchOutcome : Except Unit FetchResp) : Except Unit PipeOut :=
  match engineShortCircuit mode msgs r with
  | some (resp, st) =>
    .ok ⟨resp, true, false, .engine st, 0, 0, 0, reflSt, contSt⟩
  | none =>
    match routesCallModel allow apiKey mems uid cid reflSt contSt now r msgs
        fetchOutcome with
    | .error e => .error e
    | .ok ir =>
      let pr := enginePost mode msgs ir.text
      .ok ⟨pr.1, false, pr.2, .inner ir.stage, 1, ir.fetchCalls, ir.memReads,
           ir.reflSt, ir.contSt⟩

/-! ### Decision telemetry (telemetry/decision-log.ts) -/

/-- The caller-supplied record: optional legacy timestamp keys plus the
payload fields. -/
structure DecisionInput where
  ts : Option Str
  atF : Option Str
  route : Str
  stage : Option Str
  reason : Option Str
  shortCircuited : Option Bool
  rewritten : Option Bool
  modelCallCount : Option Nat
  memoryReadCount : Option Nat
deriving DecidableEq

/-- A stored decision record, with both timestamp fields canonical. -/
structure DecisionRecord where
  ts : Str
  atF : Str
  route : Str
  stage : Option Str
  reason : Option Str
  shortCircuited : Option Bool
  rewritten : Option Bool
  modelCallCount : Option Nat
  memoryReadCount : Option Nat
deriving DecidableEq

/-- The in-memory cap per user. -/
def maxPerUser : Nat := 200

/-- JavaScript truthy-or on an optional string: an absent or empty
string falls through. -/
def truthyOr (a : Option Str) (k : Str) : Str :=
  match a with
  | some s => if s.isEmpty then k else s
  | none => k

/-- The canonical timestamp: record.ts, else record.at, else the
current ISO time (empty strings are falsy). -/
def canonIso (i : DecisionInput) (nowIso : Str) : Str :=
  truthyOr i.ts (truthyOr i.atF nowIso)

/-- The entry built by recordDecision.  In the source the object spread
is followed by explicit ts and at keys, and later keys win, so both
fields hold the canonical value whatever the caller supplied. -/
def mkEntry (i : DecisionInput) (nowIso : Str) : DecisionRecord :=
  { ts := canonIso i nowIso
  , atF := canonIso i nowIso
  , route := i.route
  , stage := i.stage
  , reason := i.reason
  , shortCircuited := i.shortCircuited
  , rewritten := i.rewritten
  , modelCallCount := i.modelCallCount
  , memoryReadCount := i.memoryReadCount }

/-- recordDecision on one user's list: push, then splice the front when
the cap is exceeded. -/
def recordDecisionPure (arr : List DecisionRecord) (i : DecisionInput)
    (nowIso : Str) : List DecisionRecord :=
  let arr2 := arr ++ [mkEntry i nowIso]
  if maxPerUser < arr2.length then arr2.drop (arr2.length - maxPerUser)
  else arr2

/-- getRecentDecisions: the last limit entries, oldest first. -/
def getRecentDecisions (arr : List DecisionRecord) (limit : Nat) :
    List DecisionRecord :=
  arr.drop (arr.length - limit)

/-- getLastDecision. -/
def getLastDecision (arr : List DecisionRecord) : Option DecisionRecord :=
  arr.getLast?

/-- A user's list after a sequence of recordDecision calls, each given
as the caller record and the ISO time of the call. -/
def recordAll (ins : List (DecisionInput × Str)) : List DecisionRecord :=
  ins.foldl (fun acc p => recordDecisionPure acc p.1 p.2) []

/-! ### Auxiliary observations used by the theorems -/

/-- No two adjacent whitespace characters. -/
def noDoubleWs : Str → Bool
  | a :: b :: t => !(isWsChar a && isWsChar b) && noDoubleWs (b :: t)
  | _ => true

/-- No whitespace character directly before sanitizer punctuation. -/
def noWsPunct : Str → Bool
  | a :: b :: t => !(isWsChar a && isPunctChar b) && noWsPunct (b :: t)
  | _ => true

/-- No sanitizer punctuation directly followed by a letter. -/
def noPunctLetter : Str → Bool
  | a :: b :: t => !(isPunctChar a && isAsciiLetter b) && noPunctLetter (b :: t)
  | _ => true


/-- The head, when present, does not satisfy the class. -/
def headNot (q : Char → Bool) : Str → Bool
  | [] => true
  | c :: _ => !(q c)

/-- The last character, when present, does not satisfy the class. -/
def lastNot (q : Char → Bool) (t : Str) : Bool :=
  match t.getLast? with
  | none => true
  | some c => !(q c)

/-- A string is clean and cleanup-normal for a phrase: no
case-insensitive occurrence of the phrase, no double whitespace, no
whitespace before punctuation, no punctuation directly followed by a
letter, trimmed, not quote-delimited, and nonempty. -/
def cleanNormalized (p t : Str) : Bool :=
  !(containsCI p t) && noDoubleWs t && noWsPunct t && noPunctLetter t &&
  !t.isEmpty && headNot isWsChar t && headNot isQuoteChar t &&
  lastNot isWsChar t && lastNot isQuoteChar t

/-- The concatenation of all split parts. -/
def joinParts (parts : List (Str × Bool)) : Str :=
  parts.foldr (fun p acc => p.1 ++ acc) []

/-- The number of separator parts. -/
def sepCount (parts : List (Str × Bool)) : Nat :=
  (parts.filter (fun p => p.2)).length

/-- True when the final chunk of the split is empty, that is, only
whitespace follows the last terminator run of the text. -/
def endsClean (t : Str) : Bool :=
  (((splitParts t).getLast?.getD ([], false)).1).isEmpty

/-- The route-gate stages belonging to the model-call path. -/
def isModelStage : InnerStage → Bool
  | .modelDemo => true
  | .modelApology => true
  | .modelOk => true
  | _ => false

/-- A route-gate outcome reached the model-call path: either an error
escaping from the fetch or a model-branch stage. -/
def reachesModelPath (x : Except Unit InnerOut) : Bool :=
  match x with
  | .error _ => true
  | .ok o => isModelStage o.stage

/-! ## Theorems -/

theorem dropWhileLenLe (q : Char → Bool) (l : List Char) :
    (l.dropWhile q).length ≤ l.length := by
  induction l with
  | nil => simp [List.dropWhile]
  | cons d ds ih =>
    rw [List.dropWhile_cons]
    split
    · exact Nat.le_succ_of_le ih
    · simp

theorem removeAllCIF_of_clean (p : Str) :
    ∀ fuel t, containsCI p t = false → removeAllCIF p fuel t = t := by
  intro fuel
  induction fuel with
  | zero =>
    intro t _
    match t with
    | [] => rfl
    | c :: cs => rfl
  | succ fuel ih =>
    intro t h
    match t with
    | [] => rfl
    | c :: cs =>
      have h2 : startsWithCI p (c :: cs) = false ∧ containsCI p cs = false := by
        unfold containsCI at h
        constructor
        · cases hx : startsWithCI p (c :: cs) with
          | false => rfl
          | true => rw [hx] at h; simp at h
        · cases hx : containsCI p cs with
          | false => rfl
          | true => rw [hx] at h; simp at h
      have hp : p.length ≠ 0 := by
        intro h0
        have hpnil : p = [] := List.length_eq_zero.mp h0
        rw [hpnil] at h2
        simp [startsWithCI] at h2
      show (if p.length = 0 then c :: cs
            else if startsWithCI p (c :: cs) then
              removeAllCIF p fuel ((c :: cs).drop p.length)
            else c :: removeAllCIF p fuel cs) = c :: cs
      rw [if_neg hp, if_neg (by simp [h2.1]), ih cs h2.2]

theorem removeAllCI_of_clean (p t : Str) (h : containsCI p t = false) :
    removeAllCI p t = t :=
  removeAllCIF_of_clean p t.length t h

theorem collapseWsF_of_clean :
    ∀ fuel t, noDoubleWs t = true → collapseWsF fuel t = t := by
  intro fuel
  induction fuel with
  | zero =>
    intro t _
    match t with
    | [] => rfl
    | [c] => rfl
    | c :: c2 :: cs => rfl
  | succ fuel ih =>
    intro t hnd
    match t with
    | [] => rfl
    | [c] => rfl
    | c :: c2 :: cs =>
      have hpair : (isWsChar c && isWsChar c2) = false := by
        unfold noDoubleWs at hnd
        cases hx : (isWsChar c && isWsChar c2) with
        | false => rfl
        | true => rw [hx] at hnd; simp at hnd
      have htail : noDoubleWs (c2 :: cs) = true := by
        unfold noDoubleWs at hnd
        simp only [Bool.and_eq_true] at hnd
        exact hnd.2
      show (if isWsChar c && isWsChar c2 then
              ' ' :: collapseWsF fuel ((c2 :: cs).dropWhile isWsChar)
            else c :: collapseWsF fuel (c2 :: cs)) = c :: c2 :: cs
      rw [if_neg (by simp [hpair]), ih (c2 :: cs) htail]

theorem collapseWs_of_clean (t : Str) (h : noDoubleWs t = true) :
    collapseWs t = t :=
  collapseWsF_of_clean t.length t h

theorem dropWsBeforePunct_of_clean (t : Str) (hd : noDoubleWs t = true)
    (hp : noWsPunct t = true) : dropWsBeforePunct t = t := by
  induction t with
  | nil => rfl
  | cons c cs ih =>
    have hcond : (isWsChar c && headIsPunct (cs.dropWhile isWsChar)) = false := by
      cases hw : isWsChar c with
      | false => simp [hw]
      | true =>
        match cs with
        | [] => simp [List.dropWhile, headIsPunct]
        | c2 :: cs2 =>
          have h2 : isWsChar c2 = false := by
            unfold noDoubleWs at hd
            cases hx : isWsChar c2 with
            | false => rfl
            | true =>
              rw [hw, hx] at hd
              simp at hd
          have h3 : isPunctChar c2 = false := by
            unfold noWsPunct at hp
            cases hx : isPunctChar c2 with
            | false => rfl
            | true =>
              rw [hw, hx] at hp
              simp at hp
          rw [List.dropWhile_cons_of_neg (by simp [h2])]
          simp [headIsPunct, h3]
    have htl : noDoubleWs cs = true := by
      match cs with
      | [] => rfl
      | c2 :: cs2 =>
        unfold noDoubleWs at hd
        simp only [Bool.and_eq_true] at hd
        exact hd.2
    have htlp : noWsPunct cs = true := by
      match cs with
      | [] => rfl
      | c2 :: cs2 =>
        unfold noWsPunct at hp
        simp only [Bool.and_eq_true] at hp
        exact hp.2
    show (if isWsChar c && headIsPunct (cs.dropWhile isWsChar)
          then dropWsBeforePunct cs else c :: dropWsBeforePunct cs) = c :: cs
    rw [if_neg (by simp [hcond]), ih htl htlp]

theorem spaceAfterPunctLen : ∀ n t, t.length ≤ n → noPunctLetter t = true →
    spaceAfterPunct t = t := by
  intro n
  induction n with
  | zero =>
    intro t hlen _
    have : t = [] := List.length_eq_zero.mp (Nat.le_zero.mp hlen)
    rw [this]
    rfl
  | succ n ih =>
    intro t hlen hnp
    match t with
    | [] => rfl
    | [c] => rfl
    | p :: c :: cs =>
      have hpair : (isPunctChar p && isAsciiLetter c) = false := by
        unfold noPunctLetter at hnp
        cases hx : (isPunctChar p && isAsciiLetter c) with
        | false => rfl
        | true => rw [hx] at hnp; simp at hnp
      have htail : noPunctLetter (c :: cs) = true := by
        unfold noPunctLetter at hnp
        simp only [Bool.and_eq_true] at hnp
        exact hnp.2
      have hlen2 : (c :: cs).length ≤ n := by
        simp only [List.length_cons] at hlen ⊢
        omega
      show (if isPunctChar p && isAsciiLetter c
            then p :: ' ' :: c :: spaceAfterPunct cs
            else p :: spaceAfterPunct (c :: cs)) = p :: c :: cs
      rw [if_neg (by simp [hpair]), ih (c :: cs) hlen2 htail]

theorem spaceAfterPunct_of_clean (t : Str) (h : noPunctLetter t = true) :
    spaceAfterPunct t = t :=
  spaceAfterPunctLen t.length t (Nat.le_refl _) h

theorem dropWhile_of_headNot (q : Char → Bool) (t : Str)
    (h : headNot q t = true) : t.dropWhile q = t := by
  match t with
  | [] => rfl
  | c :: cs =>
    simp only [headNot, Bool.not_eq_true'] at h
    exact List.dropWhile_cons_of_neg (by simp [h])

theorem headNot_reverse (q : Char → Bool) (t : Str) (h : lastNot q t = true) :
    headNot q t.reverse = true := by
  unfold lastNot at h
  cases hx : t.reverse with
  | nil => rfl
  | cons c cs =>
    have hg : t.getLast? = some c := by
      rw [← List.head?_reverse, hx]
      rfl
    rw [hg] at h
    simpa [headNot] using h

theorem trimBoth_of_clean (t : Str) (h1 : headNot isWsChar t = true)
    (h2 : lastNot isWsChar t = true) : trimBoth t = t := by
  unfold trimBoth trimLeft trimRight
  rw [dropWhile_of_headNot _ t h1,
    dropWhile_of_headNot _ t.reverse (headNot_reverse _ t h2),
    List.reverse_reverse]

theorem stripQuoteEnds_of_clean (t : Str) (h1 : headNot isQuoteChar t = true)
    (h2 : lastNot isQuoteChar t = true) : stripQuoteEnds t = t := by
  unfold stripQuoteEnds
  rw [dropWhile_of_headNot _ t h1,
    dropWhile_of_headNot _ t.reverse (headNot_reverse _ t h2),
    List.reverse_reverse]

theorem sanitize_of_clean (t p : Str) (h : cleanNormalized p t = true) :
    sanitizeBannedPhrase t p = t := by
  unfold cleanNormalized at h
  simp only [Bool.and_eq_true, Bool.not_eq_true'] at h
  obtain ⟨⟨⟨⟨⟨⟨⟨⟨hc, hdw⟩, hwp⟩, hpl⟩, hne⟩, hw1⟩, hq1⟩, hw2⟩, hq2⟩ := h
  have hnil : t ≠ [] := by
    intro h0
    rw [h0] at hne
    simp at hne
  simp only [sanitizeBannedPhrase]
  rw [removeAllCI_of_clean p t hc, collapseWs_of_clean t hdw,
    dropWsBeforePunct_of_clean t hdw hwp, spaceAfterPunct_of_clean t hpl,
    trimBoth_of_clean t hw1 hw2, stripQuoteEnds_of_clean t hq1 hq2,
    trimBoth_of_clean t hw1 hw2]
  simp [hnil]

/-- C8: the claimed idempotence of the sanitizer fails on the code: the
whitespace-collapse cleanup can synthesize a new occurrence of the
phrase, so a clean input is changed and a second application differs
from the first.  Witnessed by the phrase with a doubled space. -/
theorem c8_sanitize_counterexample :
    containsCI "tell me how that makes you feel".data
        "tell me how that makes you  feel.".data = false ∧
    sanitizeBannedPhrase "tell me how that makes you  feel.".data
        "tell me how that makes you feel".data
      ≠ "tell me how that makes you  feel.".data ∧
    sanitizeBannedPhrase
        (sanitizeBannedPhrase "tell me how that makes you  feel.".data
          "tell me how that makes you feel".data)
        "tell me how that makes you feel".data
      ≠ sanitizeBannedPhrase "tell me how that makes you  feel.".data
          "tell me how that makes you feel".data := by
  refine ⟨by decide, by decide, by decide⟩

/-- C8 (amended): the sanitizer returns a clean, cleanup-normal string
unchanged; consequently it is idempotent on every input whose sanitized
form is clean and cleanup-normal (no phrase occurrence, no double
whitespace, no whitespace before punctuation, no punctuation directly
followed by a letter, trimmed, not quote-delimited, nonempty). -/
theorem c8_sanitize_amended (t p : Str) :
    (cleanNormalized p t = true → sanitizeBannedPhrase t p = t) ∧
    (cleanNormalized p (sanitizeBannedPhrase t p) = true →
      sanitizeBannedPhrase (sanitizeBannedPhrase t p) p =
        sanitizeBannedPhrase t p) :=
  ⟨fun h => sanitize_of_clean t p h,
   fun h => sanitize_of_clean (sanitizeBannedPhrase t p) p h⟩

/-- Witness for C8 (amended) at a concrete clean input. -/
theorem c8_sanitize_amended_witness :
    sanitizeBannedPhrase "Hello there.".data
        "tell me how that makes you feel".data = "Hello there.".data ∧
    sanitizeBannedPhrase
        (sanitizeBannedPhrase "Hello there.".data
          "tell me how that makes you feel".data)
        "tell me how that makes you feel".data
      = sanitizeBannedPhrase "Hello there.".data
          "tell me how that makes you feel".data :=
  ⟨(c8_sanitize_amended "Hello there.".data
      "tell me how that makes you feel".data).1 (by decide),
   (c8_sanitize_amended "Hello there.".data
      "tell me how that makes you feel".data).2 (by decide)⟩

theorem getLastMemAux {α : Type} (l : List α) (a : α) (h : l.getLast? = some a) :
    a ∈ l := by
  have h2 : l.reverse.head? = some a := by
    rw [List.head?_reverse]
    exact h
  have h3 : a ∈ l.reverse := by
    cases hr : l.reverse with
    | nil =>
      rw [hr] at h2
      simp at h2
    | cons x xs =>
      rw [hr] at h2
      simp only [List.head?_cons, Option.some.injEq] at h2
      rw [← h2]
      exact List.mem_cons_self x xs
  exact List.mem_reverse.mp h3

theorem rdpAll (P : DecisionRecord → Bool) (arr : List DecisionRecord)
    (i : DecisionInput) (nowIso : Str) (hall : arr.all P = true)
    (hnew : P (mkEntry i nowIso) = true) :
    (recordDecisionPure arr i nowIso).all P = true := by
  have harr2 : (arr ++ [mkEntry i nowIso]).all P = true := by
    simp only [List.all_append, Bool.and_eq_true]
    exact ⟨hall, by simp [hnew]⟩
  simp only [recordDecisionPure]
  split
  · rw [List.all_eq_true] at harr2 ⊢
    intro x hx
    exact harr2 x (List.mem_of_mem_drop hx)
  · exact harr2

theorem rdpLen (arr : List DecisionRecord) (i : DecisionInput) (nowIso : Str) :
    (recordDecisionPure arr i nowIso).length ≤ maxPerUser := by
  simp only [recordDecisionPure]
  split
  · simp only [List.length_drop]
    omega
  · rename_i hn
    omega

theorem rdpSuffix (arr : List DecisionRecord) (i : DecisionInput)
    (nowIso : Str) :
    List.IsSuffix (recordDecisionPure arr i nowIso)
      (arr ++ [mkEntry i nowIso]) := by
  simp only [recordDecisionPure]
  split
  · exact List.drop_suffix _ _
  · exact List.suffix_refl _

theorem suffixAppendRight {α : Type} (l1 l2 l3 : List α)
    (h : List.IsSuffix l1 l2) : List.IsSuffix (l1 ++ l3) (l2 ++ l3) := by
  obtain ⟨w, hw⟩ := h
  exact ⟨w, by rw [← hw, List.append_assoc]⟩

theorem recordFoldAll (ins : List (DecisionInput × Str))
    (P : DecisionRecord → Bool)
    (hP : ∀ i nowIso, P (mkEntry i nowIso) = true) :
    ∀ acc, acc.all P = true →
      (ins.foldl (fun a p => recordDecisionPure a p.1 p.2) acc).all P = true := by
  induction ins with
  | nil =>
    intro acc hacc
    exact hacc
  | cons p rest ih =>
    intro acc hacc
    exact ih _ (rdpAll P acc p.1 p.2 hacc (hP p.1 p.2))

theorem recordFoldLen (ins : List (DecisionInput × Str)) :
    ∀ acc, acc.length ≤ maxPerUser →
      (ins.foldl (fun a p => recordDecisionPure a p.1 p.2) acc).length
        ≤ maxPerUser := by
  induction ins with
  | nil =>
    intro acc hacc
    exact hacc
  | cons p rest ih =>
    intro acc _
    exact ih _ (rdpLen acc p.1 p.2)

theorem recordFoldSuffix (ins : List (DecisionInput × Str)) :
    ∀ acc L, List.IsSuffix acc L →
      List.IsSuffix (ins.foldl (fun a p => recordDecisionPure a p.1 p.2) acc)
        (L ++ ins.map (fun p => mkEntry p.1 p.2)) := by
  induction ins with
  | nil =>
    intro acc L hs
    simpa using hs
  | cons p rest ih =>
    intro acc L hs
    have h1 : List.IsSuffix (recordDecisionPure acc p.1 p.2)
        (L ++ [mkEntry p.1 p.2]) :=
      (rdpSuffix acc p.1 p.2).trans (suffixAppendRight acc L _ hs)
    have h2 := ih (recordDecisionPure acc p.1 p.2) (L ++ [mkEntry p.1 p.2]) h1
    simpa [List.append_assoc] using h2

/-- C10: every record stored by recordDecision carries the same canonical
ISO string in both timestamp fields (ts preferred, then at, else the
current time, empty strings falling through), whatever the caller
supplied; the per-user list never exceeds 200 records and is a suffix of
the full insertion sequence (the most recent records in insertion
order); getRecentDecisions and getLastDecision only return such
records. -/
theorem c10_decision_log_invariants (ins : List (DecisionInput × Str)) :
    (recordAll ins).all (fun rec => rec.ts == rec.atF) = true ∧
    (recordAll ins).length ≤ maxPerUser ∧
    List.IsSuffix (recordAll ins) (ins.map (fun p => mkEntry p.1 p.2)) ∧
    (∀ n, (getRecentDecisions (recordAll ins) n).all
      (fun rec => rec.ts == rec.atF) = true) ∧
    (∀ rec, getLastDecision (recordAll ins) = some rec → rec.ts = rec.atF) := by
  have hP : ∀ (i : DecisionInput) (nowIso : Str),
      ((mkEntry i nowIso).ts == (mkEntry i nowIso).atF) = true := by
    intro i nowIso
    simp [mkEntry]
  have hall : (recordAll ins).all (fun rec => rec.ts == rec.atF) = true :=
    recordFoldAll ins _ hP [] rfl
  refine ⟨hall, recordFoldLen ins [] (by simp [maxPerUser]), ?_, ?_, ?_⟩
  · have := recordFoldSuffix ins [] [] (List.suffix_refl [])
    simpa using this
  · intro n
    rw [List.all_eq_true] at hall
    unfold getRecentDecisions
    rw [List.all_eq_true]
    intro x hx
    exact hall x (List.mem_of_mem_drop hx)
  · intro rec hrec
    have hmem : rec ∈ recordAll ins :=
      getLastMemAux (recordAll ins) rec hrec
    rw [List.all_eq_true] at hall
    have := hall rec hmem
    simpa using this

/-- C1: generateResponse invokes the model-call collaborator at most
once per turn: zero times exactly when a short-circuit stage matched,
and exactly once otherwise, whatever text the collaborator returns
(including one containing a banned phrase, which is sanitized locally);
hence modelCallCount is 0 or 1 for every turn. -/
theorem c1_single_model_call (mode : Mode) (msgs : List Msg) (r : Nat)
    (out : Except Unit Str) (res : EngineOut)
    (h : engineEval mode msgs r out = .ok res) :
    res.collabCalls ≤ 1 ∧
    (res.collabCalls = 0 ↔ res.shortCircuited = true) ∧
    (res.shortCircuited = false → res.collabCalls = 1) := by
  cases hsc : engineShortCircuit mode msgs r with
  | some pr =>
    obtain ⟨resp, st⟩ := pr
    simp only [engineEval, hsc] at h
    injection h with h2
    rw [← h2]
    exact ⟨by simp, by simp, by simp⟩
  | none =>
    cases out with
    | error e =>
      simp only [engineEval, hsc] at h
      exact (Except.noConfusion h)
    | ok text =>
      simp only [engineEval, hsc] at h
      injection h with h2
      rw [← h2]
      exact ⟨by simp, by simp, by simp⟩

/-- Witness for C1 at a concrete turn whose collaborator output contains
a banned phrase: the sanitizer rewrites locally and the collaborator was
consulted exactly once. -/
theorem c1_single_model_call_witness :
    (⟨".".data, false, true, .modelPath, 1⟩ : EngineOut).collabCalls ≤ 1 ∧
    ((⟨".".data, false, true, .modelPath, 1⟩ : EngineOut).collabCalls = 0 ↔
      (⟨".".data, false, true, .modelPath, 1⟩ : EngineOut).shortCircuited = true) ∧
    ((⟨".".data, false, true, .modelPath, 1⟩ : EngineOut).shortCircuited = false →
      (⟨".".data, false, true, .modelPath, 1⟩ : EngineOut).collabCalls = 1) :=
  c1_single_model_call .quiet [⟨"user".data, apS "I" "m stressed today."⟩] 0
    (.ok "Tell me how that makes you feel.".data)
    ⟨".".data, false, true, .modelPath, 1⟩ (by decide)

/-- C2 (counterexample): the trimmed message hi satisfies both the
ultra-short condition and the greeting pattern, but the engine handles
it in the greeting stage, not the ultra-short stage: the greeting check
runs first. -/
theorem c2_stage_order_counterexample :
    isUltraShort "hi".data = true ∧
    isGreeting "hi".data = true ∧
    engineEval .quiet [⟨"user".data, "hi".data⟩] 0 (.ok [])
      = .ok ⟨"Hey.".data, true, false, .greeting, 0⟩ := by
  exact ⟨by decide, by decide, by decide⟩

theorem modelBranchReaches (apiKey : Bool) (r : Nat)
    (f : Except Unit FetchResp) (rs : List (Str × ReflEntry))
    (cs : List (Str × ContEntry)) :
    reachesModelPath (modelBranch apiKey r f rs cs) = true := by
  unfold modelBranch
  split
  · rfl
  · cases f with
    | error e => rfl
    | ok resp =>
      simp only []
      split
      · rfl
      · rfl

/-- C2 (amended): the stages are evaluated in the fixed source order
with first match winning, but the engine checks the greeting stage
first: greeting, ellipsis-only, ultra-short, casual probe, then the
model-call collaborator, inside which the route gate checks ellipsis,
ultra-short (route variant), explicit invite, reflection, and finally
the model branch.  In particular a message matching both the ultra-short
condition and the greeting pattern is handled by the greeting stage. -/
theorem c2_stage_order_amended :
    (∀ (mode : Mode) (msgs : List Msg) (r : Nat) (out : Except Unit Str),
      isGreeting (engineLastUser msgs) = true →
      engineEval mode msgs r out
        = .ok ⟨pick r (modeGreetingResponses mode), true, false, .greeting, 0⟩) ∧
    (∀ (mode : Mode) (msgs : List Msg) (r : Nat) (out : Except Unit Str),
      isGreeting (engineLastUser msgs) = false →
      isEllipsisOnly (engineLastUser msgs) = true →
      engineEval mode msgs r out
        = .ok ⟨pick r ellipsisResponses, true, false, .ellipsis, 0⟩) ∧
    (∀ (mode : Mode) (msgs : List Msg) (r : Nat) (out : Except Unit Str),
      isGreeting (engineLastUser msgs) = false →
      isEllipsisOnly (engineLastUser msgs) = false →
      isUltraShort (engineLastUser msgs) = true →
      engineEval mode msgs r out
        = .ok ⟨pick r ultraShortResponses, true, false, .ultraShort, 0⟩) ∧
    (∀ (mode : Mode) (msgs : List Msg) (r : Nat) (out : Except Unit Str),
      isGreeting (engineLastUser msgs) = false →
      isEllipsisOnly (engineLastUser msgs) = false →
      isUltraShort (engineLastUser msgs) = false →
      isCasualProbe (engineLastUser msgs) = true →
      engineEval mode msgs r out
        = .ok ⟨pick r casualProbeResponses, true, false, .casualProbe, 0⟩) ∧
    (∀ (mode : Mode) (msgs : List Msg) (r : Nat) (text : Str),
      isGreeting (engineLastUser msgs) = false →
      isEllipsisOnly (engineLastUser msgs) = false →
      isUltraShort (engineLastUser msgs) = false →
      isCasualProbe (engineLastUser msgs) = false →
      engineEval mode msgs r (.ok text)
        = .ok ⟨(enginePost mode msgs text).1, false,
            (enginePost mode msgs text).2, .modelPath, 1⟩) ∧
    (∀ (allow apiKey : Bool) (mems : List Memory) (uid cid : Str)
        (rs : List (Str × ReflEntry)) (cs : List (Str × ContEntry))
        (now r : Nat) (msgs : List Msg) (f : Except Unit FetchResp),
      isEllipsisOnly (routesLastUser msgs) = true →
      routesCallModel allow apiKey mems uid cid rs cs now r msgs f
        = .ok ⟨pick r quietPresenceLines, .rEllipsis, rs, cs, 0, 0⟩) ∧
    (∀ (allow apiKey : Bool) (mems : List Memory) (uid cid : Str)
        (rs : List (Str × ReflEntry)) (cs : List (Str × ContEntry))
        (now r : Nat) (msgs : List Msg) (f : Except Unit FetchResp),
      isEllipsisOnly (routesLastUser msgs) = false →
      routesUltraShort (routesLastUser msgs) (routesLower msgs)
        (wordCountStr (routesLastUser msgs)) = true →
      routesCallModel allow apiKey mems uid cid rs cs now r msgs f
        = .ok ⟨pick r softAcks, .rUltraShort, rs, cs, 0, 0⟩) ∧
    (∀ (allow apiKey : Bool) (mems : List Memory) (uid cid : Str)
        (rs : List (Str × ReflEntry)) (cs : List (Str × ContEntry))
        (now r : Nat) (msgs : List Msg) (f : Except Unit FetchResp),
      isEllipsisOnly (routesLastUser msgs) = false →
      routesUltraShort (routesLastUser msgs) (routesLower msgs)
        (wordCountStr (routesLastUser msgs)) = false →
      invitesConversation (routesLastUser msgs) = true →
      routesCallModel allow apiKey mems uid cid rs cs now r msgs f
        = .ok ⟨inviteReply, .invite, rs, cs, 0, 0⟩) ∧
    (∀ (allow apiKey : Bool) (mems : List Memory) (uid cid : Str)
        (rs : List (Str × ReflEntry)) (cs : List (Str × ContEntry))
        (now r : Nat) (msgs : List Msg) (f : Except Unit FetchResp) (b : Bucket),
      isEllipsisOnly (routesLastUser msgs) = false →
      routesUltraShort (routesLastUser msgs) (routesLower msgs)
        (wordCountStr (routesLastUser msgs)) = false →
      invitesConversation (routesLastUser msgs) = false →
      (canReflectB (reflPrev rs (stateKey uid cid)) now
        (msgSigOf (routesLower msgs)) &&
        decide (3 ≤ wordCountStr (routesLastUser msgs))) = true →
      bucketHit (routesLower msgs) = some b →
      ∃ o, routesCallModel allow apiKey mems uid cid rs cs now r msgs f
        = .ok o ∧ o.stage = .reflection ∧ o.fetchCalls = 0) ∧
    (∀ (allow apiKey : Bool) (mems : List Memory) (uid cid : Str)
        (rs : List (Str × ReflEntry)) (cs : List (Str × ContEntry))
        (now r : Nat) (msgs : List Msg) (f : Except Unit FetchResp),
      isEllipsisOnly (routesLastUser msgs) = false →
      routesUltraShort (routesLastUser msgs) (routesLower msgs)
        (wordCountStr (routesLastUser msgs)) = false →
      invitesConversation (routesLastUser msgs) = false →
      ((canReflectB (reflPrev rs (stateKey uid cid)) now
        (msgSigOf (routesLower msgs)) &&
        decide (3 ≤ wordCountStr (routesLastUser msgs))) = false ∨
        bucketHit (routesLower msgs) = none) →
      reachesModelPath
        (routesCallModel allow apiKey mems uid cid rs cs now r msgs f)
        = true) := by
  refine ⟨?_, ?_, ?_, ?_, ?_, ?_, ?_, ?_, ?_, ?_⟩
  · intro mode msgs r out hg
    simp only [engineEval, engineShortCircuit, hg, if_true]
  · intro mode msgs r out hg he
    simp only [engineEval, engineShortCircuit, hg, he, if_true,
      Bool.false_eq_true, if_false]
  · intro mode msgs r out hg he hu
    simp only [engineEval, engineShortCircuit, hg, he, hu, if_true,
      Bool.false_eq_true, if_false]
  · intro mode msgs r out hg he hu hp
    simp only [engineEval, engineShortCircuit, hg, he, hu, hp, if_true,
      Bool.false_eq_true, if_false]
  · intro mode msgs r text hg he hu hp
    simp only [engineEval, engineShortCircuit, hg, he, hu, hp,
      Bool.false_eq_true, if_false]
  · intro allow apiKey mems uid cid rs cs now r msgs f he
    simp only [routesCallModel, he, if_true]
  · intro allow apiKey mems uid cid rs cs now r msgs f he hu
    simp only [routesCallModel, he, hu, if_true, Bool.false_eq_true, if_false]
  · intro allow apiKey mems uid cid rs cs now r msgs f he hu hi
    simp only [routesCallModel, he, hu, hi, if_true, Bool.false_eq_true,
      if_false]
  · intro allow apiKey mems uid cid rs cs now r msgs f b he hu hi hcr hb
    simp only [routesCallModel, he, hu, hi, hcr, hb, if_true,
      Bool.false_eq_true, if_false]
    cases hc : (maybeGetContinuityLine allow cs (stateKey uid cid) now
        (routesLastUser msgs) mems).1 with
    | none =>
      exact ⟨_, rfl, rfl, rfl⟩
    | some pr =>
      obtain ⟨line, entry⟩ := pr
      exact ⟨_, rfl, rfl, rfl⟩
  · intro allow apiKey mems uid cid rs cs now r msgs f he hu hi hno
    simp only [routesCallModel, he, hu, hi, Bool.false_eq_true, if_false]
    cases hno with
    | inl hcr =>
      rw [hcr]
      simp only [Bool.false_eq_true, if_false]
      exact modelBranchReaches apiKey r f rs cs
    | inr hb =>
      cases hcr : (canReflectB (reflPrev rs (stateKey uid cid)) now
          (msgSigOf (routesLower msgs)) &&
          decide (3 ≤ wordCountStr (routesLastUser msgs))) with
      | false =>
        simp only [Bool.false_eq_true, if_false]
        exact modelBranchReaches apiKey r f rs cs
      | true =>
        simp only [if_true, hb]
        exact modelBranchReaches apiKey r f rs cs

/-- Witness for C2 (amended): the greeting conjunct applied to hi, and
the ultra-short conjunct applied to ok. -/
theorem c2_stage_order_witness :
    engineEval .quiet [⟨"user".data, "hi".data⟩] 5 (.ok [])
      = .ok ⟨pick 5 (modeGreetingResponses .quiet), true, false, .greeting, 0⟩ ∧
    engineEval .quiet [⟨"user".data, "ok".data⟩] 0 (.ok [])
      = .ok ⟨pick 0 ultraShortResponses, true, false, .ultraShort, 0⟩ :=
  ⟨c2_stage_order_amended.1 .quiet [⟨"user".data, "hi".data⟩] 5 (.ok [])
    (by decide),
   (c2_stage_order_amended.2.2).1 .quiet [⟨"user".data, "ok".data⟩] 0 (.ok [])
    (by decide) (by decide) (by decide)⟩

theorem routesToModel (allow apiKey : Bool) (mems : List Memory)
    (uid cid : Str) (rs : List (Str × ReflEntry))
    (cs : List (Str × ContEntry)) (now r : Nat) (msgs : List Msg)
    (f : Except Unit FetchResp)
    (he : isEllipsisOnly (routesLastUser msgs) = false)
    (hu : routesUltraShort (routesLastUser msgs) (routesLower msgs)
      (wordCountStr (routesLastUser msgs)) = false)
    (hi : invitesConversation (routesLastUser msgs) = false)
    (hno : (canReflectB (reflPrev rs (stateKey uid cid)) now
        (msgSigOf (routesLower msgs)) &&
        decide (3 ≤ wordCountStr (routesLastUser msgs))) = false ∨
      bucketHit (routesLower msgs) = none) :
    routesCallModel allow apiKey mems uid cid rs cs now r msgs f
      = modelBranch apiKey r f rs cs := by
  simp only [routesCallModel, he, hu, hi, Bool.false_eq_true, if_false]
  cases hno with
  | inl hcr =>
    rw [hcr]
    simp only [Bool.false_eq_true, if_false]
  | inr hb =>
    cases hcr : (canReflectB (reflPrev rs (stateKey uid cid)) now
        (msgSigOf (routesLower msgs)) &&
        decide (3 ≤ wordCountStr (routesLastUser msgs))) with
    | false => simp only [Bool.false_eq_true, if_false]
    | true => simp only [if_true, hb]

theorem enginePostApology (mode : Mode) (msgs : List Msg) :
    enginePost mode msgs apologyLine = (apologyLine, false) := by
  have hb : ∀ asked, containsBannedPhrase apologyLine asked = none := by
    intro asked
    cases asked with
    | false => decide
    | true => decide
  have hcs : countSentences apologyLine = 2 := by decide
  cases mode <;> simp [enginePost, hb, sentenceGate, hcs, modeStyles]

/-- C3 (counterexample): a turn that reaches the model-call stage with a
throwing collaborator (network error) does not return the apology: the
exception propagates out of evaluate to its caller. -/
theorem c3_failure_counterexample :
    pipeline .quiet false true [] "u".data "c".data [] [] 0 0
      [⟨"user".data, "Please tell me a story about a dragon".data⟩]
      (.error ()) = .error () := by
  decide

/-- C3 (amended): on a turn that reaches the model-call stage with an
API key configured, a non-OK HTTP response from the fetch yields the
fixed apology sentence with exactly one fetch and no retry; a thrown
network error is not absorbed: it propagates out of evaluate (the HTTP
route wrapper turns it into a 500 error response). -/
theorem c3_failure_amended (mode : Mode) (allow : Bool) (mems : List Memory)
    (uid cid : Str) (rs : List (Str × ReflEntry))
    (cs : List (Str × ContEntry)) (now r : Nat) (msgs : List Msg)
    (hsc : engineShortCircuit mode msgs r = none)
    (he : isEllipsisOnly (routesLastUser msgs) = false)
    (hu : routesUltraShort (routesLastUser msgs) (routesLower msgs)
      (wordCountStr (routesLastUser msgs)) = false)
    (hi : invitesConversation (routesLastUser msgs) = false)
    (hno : (canReflectB (reflPrev rs (stateKey uid cid)) now
        (msgSigOf (routesLower msgs)) &&
        decide (3 ≤ wordCountStr (routesLastUser msgs))) = false ∨
      bucketHit (routesLower msgs) = none) :
    pipeline mode allow true mems uid cid rs cs now r msgs (.error ())
      = .error () ∧
    (∀ resp : FetchResp, resp.ok = false →
      pipeline mode allow true mems uid cid rs cs now r msgs (.ok resp)
        = .ok ⟨apologyLine, false, false, .inner .modelApology, 1, 1, 0,
            rs, cs⟩) := by
  constructor
  · simp only [pipeline, hsc]
    rw [routesToModel allow true mems uid cid rs cs now r msgs (.error ())
      he hu hi hno]
    unfold modelBranch
    simp only [Bool.not_true, Bool.false_eq_true, if_false]
  · intro resp hresp
    simp only [pipeline, hsc]
    rw [routesToModel allow true mems uid cid rs cs now r msgs (.ok resp)
      he hu hi hno]
    unfold modelBranch
    simp only [Bool.not_true, Bool.false_eq_true, if_false, hresp,
      Bool.not_false, if_true]
    rw [enginePostApology mode msgs]

/-- Witness for C3 (amended) at a concrete turn reaching the model
stage. -/
theorem c3_failure_witness :
    pipeline .quiet false true [] "u".data "c".data [] [] 0 0
      [⟨"user".data, "Please tell me a story about a dragon".data⟩]
      (.error ()) = .error () ∧
    pipeline .quiet false true [] "u".data "c".data [] [] 0 0
      [⟨"user".data, "Please tell me a story about a dragon".data⟩]
      (.ok ⟨false, none⟩)
      = .ok ⟨apologyLine, false, false, .inner .modelApology, 1, 1, 0,
          [], []⟩ :=
  ⟨(c3_failure_amended .quiet false [] "u".data "c".data [] [] 0 0
      [⟨"user".data, "Please tell me a story about a dragon".data⟩]
      (by decide) (by decide) (by decide) (by decide)
      (Or.inl (by decide))).1,
   (c3_failure_amended .quiet false [] "u".data "c".data [] [] 0 0
      [⟨"user".data, "Please tell me a story about a dragon".data⟩]
      (by decide) (by decide) (by decide) (by decide)
      (Or.inl (by decide))).2 ⟨false, none⟩ rfl⟩

/-- C4 (counterexample): for the stressed-work message with the
reflection cooldown clear, a differing stored signature and voice mode
quiet, the pipeline returns the stress first-occurrence line without any
external model fetch, but the GateOutcome has shortCircuited = false,
not true as claimed: the reflection happens inside the model-call
collaborator and the engine marks the turn as a model path. -/
theorem c4_stress_counterexample :
    pipeline .quiet false true [] "u".data "c".data [] [] 100000 0
      [⟨"user".data, apS "I" "m so stressed about work today"⟩]
      (.ok ⟨true, some "UNUSED MODEL OUTPUT".data⟩)
      = .ok ⟨"That sounds like a lot to carry.".data, false, false,
          .inner .reflection, 1, 0, 0,
          [(stateKey "u".data "c".data,
            ⟨100000, apS "i" "m so stressed about work today"⟩)], []⟩ := by
  decide

/-- C4 (amended): the scenario produces the stress bucket first
occurrence line with zero external model calls, and the returned
outcome has shortCircuited = false. -/
theorem c4_stress_amended :
    (pipeline .quiet false true [] "u".data "c".data [] [] 100000 0
      [⟨"user".data, apS "I" "m so stressed about work today"⟩]
      (.ok ⟨true, some "UNUSED MODEL OUTPUT".data⟩)).toOption.map
        (fun res => (res.response, res.fetchCalls, res.shortCircuited))
      = some ("That sounds like a lot to carry.".data, 0, false) := by
  decide

theorem lookupACons {α : Type} (k : Str) (v : α) (l : List (Str × α)) :
    lookupA ((k, v) :: l) k = some v := by
  simp [lookupA, List.find?]

theorem isEmptyFalseNe (l : Str) (h : l.isEmpty = false) : l ≠ [] := by
  intro h0
  rw [h0] at h
  simp at h

/-- C6: for a fixed user and conversation, when a reflection-eligible
message fires the reflection stage at time t1 (empty stored state,
cooldown clear, nonempty signature, at least three words, bucket match),
a second message with the same signature arriving less than 45 seconds
later never produces a reflection line: the cooldown blocks it and the
turn proceeds to the model-call path. -/
theorem c6_reflection_cooldown (allow apiKey : Bool) (mems : List Memory)
    (uid cid : Str) (rs : List (Str × ReflEntry))
    (cs : List (Str × ContEntry)) (t1 t2 r1 r2 : Nat)
    (msgs1 msgs2 : List Msg) (f1 f2 : Except Unit FetchResp) (b : Bucket)
    (he1 : isEllipsisOnly (routesLastUser msgs1) = false)
    (hu1 : routesUltraShort (routesLastUser msgs1) (routesLower msgs1)
      (wordCountStr (routesLastUser msgs1)) = false)
    (hi1 : invitesConversation (routesLastUser msgs1) = false)
    (hprev : lookupA rs (stateKey uid cid) = none)
    (ht1 : reflCooldownMs < t1)
    (hsig1 : (msgSigOf (routesLower msgs1)).isEmpty = false)
    (hwc1 : 3 ≤ wordCountStr (routesLastUser msgs1))
    (hb1 : bucketHit (routesLower msgs1) = some b)
    (hsig2 : msgSigOf (routesLower msgs2) = msgSigOf (routesLower msgs1))
    (ht2 : t2 - t1 < reflCooldownMs)
    (he2 : isEllipsisOnly (routesLastUser msgs2) = false)
    (hu2 : routesUltraShort (routesLastUser msgs2) (routesLower msgs2)
      (wordCountStr (routesLastUser msgs2)) = false)
    (hi2 : invitesConversation (routesLastUser msgs2) = false) :
    ∃ o1, routesCallModel allow apiKey mems uid cid rs cs t1 r1 msgs1 f1
        = .ok o1 ∧
      o1.stage = .reflection ∧
      o1.reflSt = (stateKey uid cid,
        (⟨t1, msgSigOf (routesLower msgs1)⟩ : ReflEntry)) :: rs ∧
      reachesModelPath (routesCallModel allow apiKey mems uid cid
        o1.reflSt o1.contSt t2 r2 msgs2 f2) = true := by
  have hcr1 : (canReflectB (reflPrev rs (stateKey uid cid)) t1
      (msgSigOf (routesLower msgs1)) &&
      decide (3 ≤ wordCountStr (routesLastUser msgs1))) = true := by
    unfold canReflectB reflPrev
    rw [hprev]
    simp only [Option.getD]
    have h1 : decide (reflCooldownMs < t1 - 0) = true := by
      simp only [Nat.sub_zero]
      exact decide_eq_true ht1
    have h2 : (msgSigOf (routesLower msgs1) == ([] : Str)) = false := by
      have := isEmptyFalseNe _ hsig1
      simpa using this
    rw [h1, hsig1, h2]
    simp only [Bool.not_false, Bool.true_and, Bool.and_true]
    exact decide_eq_true hwc1
  have hrun2 : ∀ (o1refl : List (Str × ReflEntry)) (o1cont : List (Str × ContEntry)),
      o1refl = (stateKey uid cid,
        (⟨t1, msgSigOf (routesLower msgs1)⟩ : ReflEntry)) :: rs →
      reachesModelPath (routesCallModel allow apiKey mems uid cid
        o1refl o1cont t2 r2 msgs2 f2) = true := by
    intro o1refl o1cont ho
    have hcr2 : (canReflectB (reflPrev o1refl (stateKey uid cid)) t2
        (msgSigOf (routesLower msgs2)) &&
        decide (3 ≤ wordCountStr (routesLastUser msgs2))) = false := by
      unfold canReflectB reflPrev
      rw [ho, lookupACons]
      simp only [Option.getD]
      have h1 : decide (reflCooldownMs < t2 - t1) = false := by
        simp only [decide_eq_false_iff_not]
        omega
      rw [h1]
      simp only [Bool.false_and, Bool.and_false]
    rw [routesToModel allow apiKey mems uid cid o1refl o1cont t2 r2 msgs2 f2
      he2 hu2 hi2 (Or.inl hcr2)]
    exact modelBranchReaches apiKey r2 f2 o1refl o1cont
  simp only [routesCallModel, he1, hu1, hi1, hcr1, hb1, if_true,
    Bool.false_eq_true, if_false]
  cases hc : (maybeGetContinuityLine allow cs (stateKey uid cid) t1
      (routesLastUser msgs1) mems).1 with
  | none =>
    refine ⟨_, rfl, rfl, rfl, ?_⟩
    exact hrun2 _ _ rfl
  | some pr =>
    obtain ⟨line, entry⟩ := pr
    refine ⟨_, rfl, rfl, rfl, ?_⟩
    exact hrun2 _ _ rfl

/-- Witness for C6 at a concrete pair of turns 14 seconds apart. -/
theorem c6_reflection_cooldown_witness :
    ∃ o1, routesCallModel false false [] "u".data "c".data [] [] 46000 0
        [⟨"user".data, "I feel so stressed today".data⟩]
        (.ok ⟨true, none⟩) = .ok o1 ∧
      o1.stage = .reflection ∧
      o1.reflSt = (stateKey "u".data "c".data,
        (⟨46000, msgSigOf (routesLower
          [⟨"user".data, "I feel so stressed today".data⟩])⟩ : ReflEntry))
        :: [] ∧
      reachesModelPath (routesCallModel false false [] "u".data "c".data
        o1.reflSt o1.contSt 60000 0
        [⟨"user".data, "I feel so stressed today".data⟩]
        (.ok ⟨true, none⟩)) = true :=
  c6_reflection_cooldown false false [] "u".data "c".data [] [] 46000 60000
    0 0 [⟨"user".data, "I feel so stressed today".data⟩]
    [⟨"user".data, "I feel so stressed today".data⟩]
    (.ok ⟨true, none⟩) (.ok ⟨true, none⟩)
    ((bucketHit (routesLower
      [⟨"user".data, "I feel so stressed today".data⟩])).getD
      ⟨[], [], [], []⟩)
    (by decide) (by decide) (by decide) (by decide) (by decide) (by decide)
    (by decide) (by decide) (by decide) (by decide) (by decide) (by decide)
    (by decide)

theorem modelBranchMemReads (apiKey : Bool) (r : Nat)
    (f : Except Unit FetchResp) (rs : List (Str × ReflEntry))
    (cs : List (Str × ContEntry)) (o : InnerOut)
    (h : modelBranch apiKey r f rs cs = .ok o) : o.memReads = 0 := by
  unfold modelBranch at h
  split at h
  · injection h with h2
    rw [← h2]
  · cases f with
    | error e => exact (Except.noConfusion h)
    | ok resp =>
      simp only [] at h
      split at h
      · injection h with h2
        rw [← h2]
      · injection h with h2
        rw [← h2]

theorem crmNoMem (apiKey : Bool) (mems : List Memory) (uid cid : Str)
    (rs : List (Str × ReflEntry)) (cs : List (Str × ContEntry))
    (now r : Nat) (msgs : List Msg) (f : Except Unit FetchResp) :
    routesCallModel false apiKey mems uid cid rs cs now r msgs f
      = routesCallModel false apiKey [] uid cid rs cs now r msgs f ∧
    (∀ o, routesCallModel false apiKey mems uid cid rs cs now r msgs f
      = .ok o → o.memReads = 0) := by
  have hcont : ∀ (cs2 : List (Str × ContEntry)) (key : Str) (n : Nat)
      (t : Str) (ms : List Memory),
      maybeGetContinuityLine false cs2 key n t ms = (none, 0) := by
    intro cs2 key n t ms
    rfl
  constructor
  · simp only [routesCallModel, hcont]
  · intro o h
    simp only [routesCallModel, hcont] at h
    split at h
    · injection h with h2
      rw [← h2]
    · split at h
      · injection h with h2
        rw [← h2]
      · split at h
        · injection h with h2
          rw [← h2]
        · split at h
          · split at h
            · injection h with h2
              rw [← h2]
            · exact modelBranchMemReads _ _ _ _ _ _ h
          · exact modelBranchMemReads _ _ _ _ _ _ h

/-- C7: with allowMemoryReferences false the pipeline never reads the
memory store and its outcome is independent of the stored memories: two
runs differing only in the memory snapshot (same messages, mode, clock,
randomness and fetch outcome) are identical, and the memory-read count
is zero. -/
theorem c7_memory_opt_in (mode : Mode) (apiKey : Bool)
    (mems1 mems2 : List Memory) (uid cid : Str)
    (rs : List (Str × ReflEntry)) (cs : List (Str × ContEntry))
    (now r : Nat) (msgs : List Msg) (f : Except Unit FetchResp) :
    pipeline mode false apiKey mems1 uid cid rs cs now r msgs f
      = pipeline mode false apiKey mems2 uid cid rs cs now r msgs f ∧
    (∀ res, pipeline mode false apiKey mems1 uid cid rs cs now r msgs f
      = .ok res → res.memReads = 0) := by
  constructor
  · cases hsc : engineShortCircuit mode msgs r with
    | some pr =>
      obtain ⟨resp, st⟩ := pr
      simp only [pipeline, hsc]
    | none =>
      simp only [pipeline, hsc]
      rw [(crmNoMem apiKey mems1 uid cid rs cs now r msgs f).1,
        (crmNoMem apiKey mems2 uid cid rs cs now r msgs f).1]
  · intro res h
    cases hsc : engineShortCircuit mode msgs r with
    | some pr =>
      obtain ⟨resp, st⟩ := pr
      simp only [pipeline, hsc] at h
      injection h with h2
      rw [← h2]
    | none =>
      simp only [pipeline, hsc] at h
      cases hr : routesCallModel false apiKey mems1 uid cid rs cs now r
          msgs f with
      | error e =>
        rw [hr] at h
        exact (Except.noConfusion h)
      | ok o =>
        rw [hr] at h
        injection h with h2
        rw [← h2]
        exact (crmNoMem apiKey mems1 uid cid rs cs now r msgs f).2 o hr

/-- Witness for C7: two different memory snapshots, identical outcomes
and zero memory reads on a concrete turn. -/
theorem c7_memory_opt_in_witness :
    pipeline .quiet false false [⟨"a".data, "b".data⟩] "u".data "c".data
      [] [] 0 0 [⟨"user".data, "hello friend how are you".data⟩]
      (.ok ⟨true, none⟩)
      = pipeline .quiet false false [] "u".data "c".data [] [] 0 0
        [⟨"user".data, "hello friend how are you".data⟩]
        (.ok ⟨true, none⟩) ∧
    (⟨imHere, false, false, .inner .modelDemo, 1, 0, 0, [], []⟩ :
      PipeOut).memReads = 0 :=
  ⟨(c7_memory_opt_in .quiet false [⟨"a".data, "b".data⟩] [] "u".data
      "c".data [] [] 0 0 [⟨"user".data, "hello friend how are you".data⟩]
      (.ok ⟨true, none⟩)).1,
   (c7_memory_opt_in .quiet false [⟨"a".data, "b".data⟩] [] "u".data
      "c".data [] [] 0 0 [⟨"user".data, "hello friend how are you".data⟩]
      (.ok ⟨true, none⟩)).2
     ⟨imHere, false, false, .inner .modelDemo, 1, 0, 0, [], []⟩ (by decide)⟩

theorem pickBestAuxMax (terms : List Str) (mems : List Memory) :
    ∀ (acc : Option Memory) (b : Memory),
      pickBestAux terms acc mems = some b →
      (∀ m ∈ mems, memScore terms m ≤ memScore terms b) ∧
      (∀ a, acc = some a → memScore terms a ≤ memScore terms b) := by
  induction mems with
  | nil =>
    intro acc b h
    refine ⟨by simp, ?_⟩
    intro a ha
    rw [ha] at h
    injection h with h2
    rw [h2]
  | cons m rest ih =>
    intro acc b h
    match acc with
    | none =>
      by_cases hc : 0 < memScore terms m
      · rw [show pickBestAux terms none (m :: rest)
            = pickBestAux terms (some m) rest by
          simp [pickBestAux, if_pos hc]] at h
        obtain ⟨h1, h2⟩ := ih (some m) b h
        refine ⟨?_, by simp⟩
        intro x hx
        cases hx with
        | head => exact h2 m rfl
        | tail _ hx2 => exact h1 x hx2
      · rw [show pickBestAux terms none (m :: rest)
            = pickBestAux terms none rest by
          simp [pickBestAux, if_neg hc]] at h
        obtain ⟨h1, _⟩ := ih none b h
        refine ⟨?_, by simp⟩
        intro x hx
        cases hx with
        | head =>
          have : memScore terms m = 0 := by omega
          rw [this]
          exact Nat.zero_le _
        | tail _ hx2 => exact h1 x hx2
    | some a =>
      by_cases hc : memScore terms a < memScore terms m
      · rw [show pickBestAux terms (some a) (m :: rest)
            = pickBestAux terms (some m) rest by
          simp [pickBestAux, if_pos hc]] at h
        obtain ⟨h1, h2⟩ := ih (some m) b h
        refine ⟨?_, ?_⟩
        · intro x hx
          cases hx with
          | head => exact h2 m rfl
          | tail _ hx2 => exact h1 x hx2
        · intro a2 ha2
          injection ha2 with ha3
          rw [← ha3]
          have := h2 m rfl
          omega
      · rw [show pickBestAux terms (some a) (m :: rest)
            = pickBestAux terms (some a) rest by
          simp [pickBestAux, if_neg hc]] at h
        obtain ⟨h1, h2⟩ := ih (some a) b h
        refine ⟨?_, ?_⟩
        · intro x hx
          cases hx with
          | head =>
            have := h2 a rfl
            omega
          | tail _ hx2 => exact h1 x hx2
        · intro a2 ha2
          injection ha2 with ha3
          rw [← ha3]
          exact h2 a rfl

theorem pickBestMax (terms : List Str) (mems : List Memory) (b : Memory)
    (h : pickBest terms mems = some b) :
    ∀ m ∈ mems, memScore terms m ≤ memScore terms b :=
  (pickBestAuxMax terms mems none b h).1

/-- C5 (counterexample): the continuity gate does not fall back to the
next-best memory.  Here the top scorer (score 3) is the memory
referenced last time and another memory scores 1 > 0, yet the gate
returns no continuity line at all instead of referencing the other
memory. -/
theorem c5_continuity_counterexample :
    memScore (matchedFocus (lowerStr (apS "i" "m stressed and tired today")))
      ⟨"m1".data, "work stress has me stressed and tired".data⟩ = 3 ∧
    memScore (matchedFocus (lowerStr (apS "i" "m stressed and tired today")))
      ⟨"m2".data, "feeling tired lately".data⟩ = 1 ∧
    maybeGetContinuityLine true
      [(stateKey "u".data "c".data, ⟨0, some "m1".data⟩)]
      (stateKey "u".data "c".data) 700000
      (apS "i" "m stressed and tired today")
      [⟨"m1".data, "work stress has me stressed and tired".data⟩,
       ⟨"m2".data, "feeling tired lately".data⟩] = (none, 1) := by
  exact ⟨by decide, by decide, by decide⟩

/-- C5 (amended): when the continuity stage is eligible (opt-in, cooldown
elapsed, at least three words, memories and matched focus terms
present), it scores each memory by the number of matched focus terms
occurring in its content and selects the single top scorer (earliest on
ties); if that memory is the one referenced last time the stage yields
nothing at all (no fallback to the next-best), otherwise it yields the
continuity line for it together with the updated cooldown entry holding
the chosen memory id and the current timestamp.  One memory read is
performed either way. -/
theorem c5_continuity_amended (cs : List (Str × ContEntry)) (key : Str)
    (now : Nat) (lastText : Str) (mems : List Memory) (best : Memory)
    (hcool : ¬ (now - ((lookupA cs key).getD ⟨0, none⟩).lastAt
      < contCooldownMs))
    (hwc : ¬ (wordCountStr lastText < 3))
    (hmems : mems.isEmpty = false)
    (hterms : (matchedFocus (lowerStr lastText)).isEmpty = false)
    (hbest : pickBest (matchedFocus (lowerStr lastText)) mems = some best)
    (hraw : (normContent best).isEmpty = false) :
    (∀ m ∈ mems, memScore (matchedFocus (lowerStr lastText)) m
      ≤ memScore (matchedFocus (lowerStr lastText)) best) ∧
    (isLastRef ((lookupA cs key).getD ⟨0, none⟩) best = true →
      maybeGetContinuityLine true cs key now lastText mems = (none, 1)) ∧
    (isLastRef ((lookupA cs key).getD ⟨0, none⟩) best = false →
      maybeGetContinuityLine true cs key now lastText mems
        = (some (contLine best, ⟨now, some best.id⟩), 1)) := by
  refine ⟨pickBestMax _ mems best hbest, ?_, ?_⟩
  · intro hlast
    simp only [maybeGetContinuityLine, Bool.not_true, Bool.false_eq_true,
      if_false, if_neg hcool, if_neg hwc, hmems, hterms, hbest, hlast,
      if_true]
  · intro hlast
    simp only [maybeGetContinuityLine, Bool.not_true, Bool.false_eq_true,
      if_false, if_neg hcool, if_neg hwc, hmems, hterms, hbest, hlast,
      hraw, if_true]

/-- Witness for C5 (amended): with a different last-referenced memory the
top scorer is referenced and the cooldown entry is updated. -/
theorem c5_continuity_amended_witness :
    maybeGetContinuityLine true
      [(stateKey "u".data "c".data, ⟨0, some "m9".data⟩)]
      (stateKey "u".data "c".data) 700000
      (apS "i" "m stressed and tired today")
      [⟨"m1".data, "work stress has me stressed and tired".data⟩,
       ⟨"m2".data, "feeling tired lately".data⟩]
      = (some (contLine
          ⟨"m1".data, "work stress has me stressed and tired".data⟩,
          ⟨700000, some "m1".data⟩), 1) :=
  (c5_continuity_amended
    [(stateKey "u".data "c".data, ⟨0, some "m9".data⟩)]
    (stateKey "u".data "c".data) 700000
    (apS "i" "m stressed and tired today")
    [⟨"m1".data, "work stress has me stressed and tired".data⟩,
     ⟨"m2".data, "feeling tired lately".data⟩]
    ⟨"m1".data, "work stress has me stressed and tired".data⟩
    (by decide) (by decide) (by decide) (by decide) (by decide)
    (by decide)).2.2 (by decide)

theorem dropWhileHeadFalse (q : Char → Bool) (l : List Char) (c : Char)
    (cs : List Char) (h : l.dropWhile q = c :: cs) : q c = false := by
  induction l with
  | nil => simp [List.dropWhile] at h
  | cons d ds ih =>
    rw [List.dropWhile_cons] at h
    by_cases hq : q d
    · rw [if_pos hq] at h
      exact ih h
    · rw [if_neg hq] at h
      cases h
      simpa using hq

theorem splitDecomp (t : Str) : chunkOf t ++ (sepOf t ++ tailOf t) = t := by
  unfold chunkOf sepOf tailOf restOf
  rw [List.append_assoc]
  rw [List.takeWhile_append_dropWhile isWsChar
    ((t.dropWhile (fun c => !(isTermChar c))).dropWhile isTermChar)]
  rw [List.takeWhile_append_dropWhile isTermChar
    (t.dropWhile (fun c => !(isTermChar c)))]
  rw [List.takeWhile_append_dropWhile (fun c => !(isTermChar c)) t]

theorem tailLt (t : Str) (h : (restOf t).length ≠ 0) :
    (tailOf t).length < t.length := by
  cases hR : restOf t with
  | nil =>
    rw [hR] at h
    simp at h
  | cons c cs =>
    have hterm : isTermChar c = true := by
      have hx := dropWhileHeadFalse (fun x => !(isTermChar x)) t c cs hR
      simpa using hx
    have h1 : (tailOf t).length ≤ ((restOf t).dropWhile isTermChar).length :=
      dropWhileLenLe _ _
    have h2 : ((restOf t).dropWhile isTermChar).length ≤ cs.length := by
      rw [hR, List.dropWhile_cons_of_pos hterm]
      exact dropWhileLenLe _ _
    have h3 : (restOf t).length ≤ t.length := dropWhileLenLe _ t
    rw [hR] at h3
    simp only [List.length_cons] at h3
    omega

theorem splitPartsFSucc (n : Nat) (t : Str) :
    splitPartsF (n + 1) t = if (restOf t).length = 0 then [(chunkOf t, false)]
      else (chunkOf t, false) :: (sepOf t, true) :: splitPartsF n (tailOf t) :=
  rfl

theorem splitPartsFNil (k : Nat) : splitPartsF k [] = [([], false)] := by
  cases k with
  | zero => rfl
  | succ n => rfl

theorem splitPartsFInv : ∀ f k (t : Str), t.length ≤ f → t.length ≤ k →
    splitPartsF f t = splitPartsF k t := by
  intro f
  induction f with
  | zero =>
    intro k t hf _
    have ht : t = [] := List.length_eq_zero.mp (Nat.le_zero.mp hf)
    subst ht
    rw [splitPartsFNil, splitPartsFNil]
  | succ f ih =>
    intro k t hf hk
    match t, k with
    | [], k => rw [splitPartsFNil, splitPartsFNil]
    | c :: cs, 0 => simp at hk
    | c :: cs, k + 1 =>
      rw [splitPartsFSucc, splitPartsFSucc]
      by_cases hr : (restOf (c :: cs)).length = 0
      · rw [if_pos hr, if_pos hr]
      · rw [if_neg hr, if_neg hr]
        have hlt := tailLt (c :: cs) hr
        have h1 : (tailOf (c :: cs)).length ≤ f := by
          simp only [List.length_cons] at hf hlt ⊢
          omega
        have h2 : (tailOf (c :: cs)).length ≤ k := by
          simp only [List.length_cons] at hk hlt ⊢
          omega
        rw [ih k (tailOf (c :: cs)) h1 h2]

theorem splitParts_unfold (t : Str) :
    splitParts t = if (restOf t).length = 0 then [(chunkOf t, false)]
      else (chunkOf t, false) :: (sepOf t, true) :: splitParts (tailOf t) := by
  unfold splitParts
  rw [splitPartsFInv t.length (t.length + 1) t (Nat.le_refl _) (by omega)]
  rw [splitPartsFSucc]
  by_cases hr : (restOf t).length = 0
  · rw [if_pos hr, if_pos hr]
  · rw [if_neg hr, if_neg hr]
    have hlt := tailLt t hr
    rw [splitPartsFInv t.length (tailOf t).length (tailOf t) (by omega)
      (Nat.le_refl _)]

theorem chunkOfRestNil (t : Str) (h : restOf t = []) : chunkOf t = t := by
  have hx := List.takeWhile_append_dropWhile (fun c => !(isTermChar c)) t
  unfold restOf at h
  rw [h, List.append_nil] at hx
  exact hx

theorem splitPartsNe (t : Str) : splitParts t ≠ [] := by
  rw [splitParts_unfold]
  by_cases hr : (restOf t).length = 0
  · rw [if_pos hr]
    simp
  · rw [if_neg hr]
    simp

theorem endsCleanStep (t : Str) (hr : (restOf t).length ≠ 0) :
    endsClean t = endsClean (tailOf t) := by
  unfold endsClean
  rw [splitParts_unfold t, if_neg hr]
  rw [List.getLast?_cons_cons]
  cases hsp : splitParts (tailOf t) with
  | nil => exact absurd hsp (splitPartsNe _)
  | cons x xs => rw [List.getLast?_cons_cons]

theorem charWsNotTerm (c : Char) (h : isWsChar c = true) :
    isTermChar c = false := by
  unfold isWsChar at h
  simp only [Bool.or_eq_true, beq_iff_eq] at h
  have hterm : isTermChar c
      = (c.toNat == 46 || c.toNat == 33 || c.toNat == 63) := rfl
  rw [hterm]
  rcases h with ((((((h | h) | h) | h) | h) | h) | h) <;> rw [h] <;> rfl

theorem termRunsAppendNonTerm (l1 l2 : Str)
    (h : ∀ c ∈ l1, isTermChar c = false) :
    termRunsA false (l1 ++ l2) = termRunsA false l2 := by
  induction l1 with
  | nil => rfl
  | cons c cs ih =>
    have hc : isTermChar c = false := h c (List.mem_cons_self c cs)
    simp only [List.cons_append, termRunsA, hc, Bool.false_eq_true, if_false,
      List.append_eq]
    exact ih (fun x hx => h x (List.mem_cons_of_mem c hx))

theorem termRunsAllTrue (l1 l2 : Str) (h : ∀ c ∈ l1, isTermChar c = true) :
    termRunsA true (l1 ++ l2) = termRunsA true l2 := by
  induction l1 with
  | nil => rfl
  | cons c cs ih =>
    have hc : isTermChar c = true := h c (List.mem_cons_self c cs)
    simp only [List.cons_append, termRunsA, hc, if_true, List.append_eq,
      Nat.zero_add]
    rw [ih (fun x hx => h x (List.mem_cons_of_mem c hx))]

theorem termRunsRun (run l2 : Str) (hne : run ≠ [])
    (h : ∀ c ∈ run, isTermChar c = true) :
    termRunsA false (run ++ l2) = 1 + termRunsA true l2 := by
  match run with
  | [] => exact absurd rfl hne
  | c :: cs =>
    have hc : isTermChar c = true := h c (List.mem_cons_self c cs)
    simp only [List.cons_append, termRunsA, hc, if_true, List.append_eq,
      Bool.false_eq_true, if_false]
    rw [termRunsAllTrue cs l2 (fun x hx => h x (List.mem_cons_of_mem c hx))]

theorem termRunsAHeadNonTerm (l : Str) (h : headNot isTermChar l = true) :
    termRunsA true l = termRunsA false l := by
  match l with
  | [] => rfl
  | c :: cs =>
    have hc : isTermChar c = false := by
      simp only [headNot, Bool.not_eq_true'] at h
      exact h
    simp only [termRunsA, hc, Bool.false_eq_true, if_false]

theorem termRunsWsBridge (ws l2 : Str) (hws : ∀ c ∈ ws, isWsChar c = true)
    (hhead : ws = [] → headNot isTermChar l2 = true) :
    termRunsA true (ws ++ l2) = termRunsA false l2 := by
  match ws with
  | [] =>
    simpa using termRunsAHeadNonTerm l2 (hhead rfl)
  | c :: cs =>
    have hct : isTermChar c = false :=
      charWsNotTerm c (hws c (List.mem_cons_self c cs))
    simp only [List.cons_append, termRunsA, hct, Bool.false_eq_true, if_false,
      List.append_eq]
    exact termRunsAppendNonTerm cs l2
      (fun x hx => charWsNotTerm x (hws x (List.mem_cons_of_mem c hx)))

theorem termRunsZeroChunk (t : Str) (hr : restOf t = []) : termRuns t = 0 := by
  have hall : ∀ c ∈ t, isTermChar c = false := by
    intro c hc
    have := List.dropWhile_eq_nil_iff.mp hr c hc
    simpa using this
  unfold termRuns
  have hx := termRunsAppendNonTerm t [] hall
  rw [List.append_nil] at hx
  exact hx

theorem termRunsStep (t : Str) (hr : (restOf t).length ≠ 0) :
    termRuns t = 1 + termRuns (tailOf t) := by
  have hd := splitDecomp t
  unfold termRuns
  conv_lhs => rw [← hd]
  rw [termRunsAppendNonTerm]
  · rw [show sepOf t ++ tailOf t
        = (restOf t).takeWhile isTermChar ++
          (((restOf t).dropWhile isTermChar).takeWhile isWsChar ++ tailOf t)
        by unfold sepOf; rw [List.append_assoc]]
    rw [termRunsRun]
    · rw [termRunsWsBridge]
      · intro c hc
        exact List.mem_takeWhile_imp hc
      · intro hwsnil
        unfold tailOf
        cases hR2 : (restOf t).dropWhile isTermChar with
        | nil => simp [headNot]
        | cons d ds =>
          have hd2 : isTermChar d = false :=
            dropWhileHeadFalse isTermChar (restOf t) d ds hR2
          have hdw : isWsChar d = false := by
            rw [hR2] at hwsnil
            by_cases hw : isWsChar d
            · rw [List.takeWhile_cons_of_pos hw] at hwsnil
              exact absurd hwsnil (by simp)
            · simpa using hw
          rw [List.dropWhile_cons_of_neg (by simp [hdw])]
          simp [headNot, hd2]
    · cases hR : restOf t with
      | nil =>
        rw [hR] at hr
        simp at hr
      | cons c cs =>
        have hterm : isTermChar c = true := by
          have hx := dropWhileHeadFalse (fun x => !(isTermChar x)) t c cs hR
          simpa using hx
        rw [List.takeWhile_cons_of_pos hterm]
        simp
    · intro c hc
      exact List.mem_takeWhile_imp hc
  · intro c hc
    have := List.mem_takeWhile_imp hc
    simpa using this

theorem termRunsZeroNoTerm (l : Str) :
    termRunsA false l = 0 → ∀ c ∈ l, isTermChar c = false := by
  induction l with
  | nil =>
    intro _ c hc
    simp at hc
  | cons d ds ih =>
    intro h c hc
    by_cases hd : isTermChar d
    · exfalso
      simp only [termRunsA, hd, if_true, Bool.false_eq_true, if_false] at h
      omega
    · simp only [termRunsA, hd, Bool.false_eq_true, if_false] at h
      cases hc with
      | head => simpa using hd
      | tail _ hc2 => exact ih h c hc2

theorem truncSplit : ∀ n (t : Str) (maxS cnt : Nat), t.length ≤ n →
    (termRuns t = 0 ∨ cnt + termRuns t < maxS ∨
      (cnt + termRuns t = maxS ∧ endsClean t = true)) →
    truncLoop maxS (splitParts t) cnt = t := by
  intro n
  induction n with
  | zero =>
    intro t maxS cnt hlen _
    have ht : t = [] := List.length_eq_zero.mp (Nat.le_zero.mp hlen)
    subst ht
    rfl
  | succ n ih =>
    intro t maxS cnt hlen hd
    rw [splitParts_unfold]
    by_cases hr : (restOf t).length = 0
    · rw [if_pos hr]
      have hc : chunkOf t = t :=
        chunkOfRestNil t (List.length_eq_zero.mp hr)
      show chunkOf t ++ truncLoop maxS [] cnt = t
      rw [show truncLoop maxS [] cnt = [] from rfl, List.append_nil, hc]
    · rw [if_neg hr]
      have hstep := termRunsStep t hr
      have hlt := tailLt t hr
      show chunkOf t ++ (if maxS ≤ cnt + 1 then sepOf t
        else sepOf t ++ truncLoop maxS (splitParts (tailOf t)) (cnt + 1)) = t
      rcases hd with h0 | hlt2 | hd3
      · omega
      · have hnb : ¬ (maxS ≤ cnt + 1) := by omega
        rw [if_neg hnb]
        rw [ih (tailOf t) maxS (cnt + 1) (by omega)
          (Or.inr (Or.inl (by omega)))]
        exact splitDecomp t
      · obtain ⟨heq, hclean⟩ := hd3
        have hcleanTail : endsClean (tailOf t) = true := by
          rw [← endsCleanStep t hr]
          exact hclean
        by_cases hz : termRuns (tailOf t) = 0
        · have hmax : maxS = cnt + 1 := by omega
          rw [if_pos (by omega)]
          have hall := termRunsZeroNoTerm (tailOf t) hz
          have hrt : restOf (tailOf t) = [] := by
            apply List.dropWhile_eq_nil_iff.mpr
            intro x hx
            simp [hall x hx]
          have htail : tailOf t = [] := by
            unfold endsClean at hcleanTail
            rw [splitParts_unfold (tailOf t), if_pos (by rw [hrt]; rfl)]
              at hcleanTail
            rw [chunkOfRestNil (tailOf t) hrt] at hcleanTail
            simp only [List.getLast?_singleton, Option.getD_some]
              at hcleanTail
            exact List.isEmpty_iff.mp hcleanTail
          have hd2 := splitDecomp t
          rw [htail, List.append_nil] at hd2
          exact hd2
        · have hnb : ¬ (maxS ≤ cnt + 1) := by omega
          rw [if_neg hnb]
          rw [ih (tailOf t) maxS (cnt + 1) (by omega)
            (Or.inr (Or.inr ⟨by omega, hcleanTail⟩))]
          exact splitDecomp t

/-- C9 (counterexample): the round-trip claim fails on the code in two
ways.  With exactly one terminator run and cap 1, content after the last
terminator is dropped, not preserved; and a whitespace-only text (zero
terminator runs) yields the empty string although the input is
nonempty. -/
theorem c9_truncate_counterexample :
    termRuns "Hi. there".data = 1 ∧
    truncateToMaxSentences "Hi. there".data 1 = "Hi.".data ∧
    truncateToMaxSentences " ".data 2 = [] ∧ " ".data ≠ [] := by
  exact ⟨by decide, by decide, by decide, by decide⟩

/-- C9 (amended): truncate returns the text trimmed of leading and
trailing whitespace exactly when the text has zero terminator runs,
fewer runs than the cap, or exactly as many runs as the cap with only
whitespace after the last run; consequently it returns a nonempty string
for every such text that is not whitespace-only.  (Whitespace-only
inputs come back empty, and a text with as many runs as the cap loses
any content after its last terminator run.) -/
theorem c9_truncate_amended (t : Str) (N : Nat)
    (h : termRuns t = 0 ∨ termRuns t < N ∨
      (termRuns t = N ∧ endsClean t = true)) :
    truncateToMaxSentences t N = trimBoth t ∧
    (trimBoth t ≠ [] → truncateToMaxSentences t N ≠ []) := by
  have hmain : truncateToMaxSentences t N = trimBoth t := by
    unfold truncateToMaxSentences
    rw [truncSplit t.length t N 0 (Nat.le_refl _) ?_]
    rcases h with h | h | h
    · exact Or.inl h
    · exact Or.inr (Or.inl (by omega))
    · exact Or.inr (Or.inr ⟨by omega, h.2⟩)
  refine ⟨hmain, ?_⟩
  intro hne
  rw [hmain]
  exact hne

/-- Witness for C9 (amended): a text with exactly two runs, cap two, and
only whitespace after the final terminator comes back trimmed and
nonempty. -/
theorem c9_truncate_amended_witness :
    truncateToMaxSentences "One. Two. ".data 2 = trimBoth "One. Two. ".data ∧
    (trimBoth "One. Two. ".data ≠ [] →
      truncateToMaxSentences "One. Two. ".data 2 ≠ []) :=
  c9_truncate_amended "One. Two. ".data 2
    (Or.inr (Or.inr ⟨by decide, by decide⟩))

end Nova
